import Mathlib

/-!
# Verification of the obd-meter protocol core

Shallow embedding of the OBD-II protocol engine of ryoryoai/obd-meter:
the ELM327 response parser, the Torque-equation compiler, the PID registry
merge, the supported-PID bitmask decoding, the supported-PID range scan,
and the polling scheduler (grouping, per-group error isolation, and the
start/stop state machine).

Sources embedded:
* `src/obd/protocol.ts` — `parseResponseBytes`, `formatObdCommand`,
  `ensureTxHeader`, `querySupportedPids`, `startPolling` / `stopPolling`.
* `src/obd/torqueEquation.ts` — tokenizer, shunting-yard, RPN evaluator,
  `torqueVarToIndex`, `getByte`, `compileTorqueEquation`.
* `src/obd/pid/standard.ts` — `decodeSupportedPids`, `SUPPORTED_PID_QUERIES`.
* `src/obd/pid/toyota.ts` — `ZVW30_ALIAS_PIDS`, the `TOYOTA_PIDS` merge.

JavaScript numbers are modelled as `ℚ` (the decoders only use `+ - * /` on
finite values), byte arrays as `List ℕ`, and strings as `String` /
`List Char` with ASCII case folding.  Fallible steps (`throw` in the
source) are explicit `Option`/`Except` values.
-/

/-! ## JavaScript string primitives -/

/-- ASCII upper-casing, the effect of `String.prototype.toUpperCase` on the
ASCII range (adapter replies and PID requests are ASCII). -/
def jsToUpper (c : Char) : Char :=
  if 'a' ≤ c ∧ c ≤ 'z' then Char.ofNat (c.toNat - 32) else c

/-- Whitespace class used by `trim` and by the `\s` regex class. -/
def isJsSpace (c : Char) : Bool :=
  c = ' ' ∨ c = '\t' ∨ c = '\n' ∨ c = '\r' ∨ c = '\x0b' ∨ c = '\x0c'

/-- `String.prototype.trim`. -/
def jsTrim (l : List Char) : List Char :=
  ((l.dropWhile isJsSpace).reverse.dropWhile isJsSpace).reverse

/-- `String.prototype.includes`: `needle` occurs as a contiguous substring. -/
def containsSub (needle hay : List Char) : Bool :=
  hay.tails.any (fun t => needle.isPrefixOf t)

/-- Upper-case hex digit test (the cleaned reply is upper-cased first, so the
source's `[0-9A-F]` class is exactly this). -/
def isHexUpper (c : Char) : Bool :=
  ('0' ≤ c ∧ c ≤ '9') ∨ ('A' ≤ c ∧ c ≤ 'F')

/-- Value of one upper-case hex digit. -/
def hexVal (c : Char) : ℕ :=
  if '0' ≤ c ∧ c ≤ '9' then c.toNat - 48 else c.toNat - 55

/-- Value of a two-hex-digit pair. -/
def hexPairVal (a b : Char) : ℕ := 16 * hexVal a + hexVal b

/-- The global regex scan `cleaned.match(/[0-9A-F]{2}/g)`: at each position a
two-hex-digit match consumes both characters, otherwise the scan advances by
one character.  Returns the matched byte values. -/
def extractPairs : List Char → List ℕ
  | [] => []
  | [_] => []
  | a :: b :: rest =>
    if isHexUpper a && isHexUpper b then hexPairVal a b :: extractPairs rest
    else extractPairs (b :: rest)

/-- `parseInt(s, 16)` on a (whitespace-free) string: value of the longest
leading run of hex digits, `none` for `NaN` (no leading hex digit). -/
def hexPrefixVal (l : List Char) : Option ℕ :=
  match l.takeWhile isHexUpper with
  | [] => none
  | ds => some (ds.foldl (fun n c => 16 * n + hexVal c) 0)

/-- The cleanup step of `parseResponseBytes`:
`rawResponse.replace(/>/g, '').trim().toUpperCase()`. -/
def cleanReply (rawResponse : String) : List Char :=
  (jsTrim (rawResponse.data.filter (fun c => c ≠ '>'))).map jsToUpper

/-- The rejected error substrings of `parseResponseBytes`. -/
def hasErrorToken (cleaned : List Char) : Bool :=
  containsSub "NO DATA".data cleaned || containsSub "ERROR".data cleaned ||
    containsSub "UNABLE TO CONNECT".data cleaned || containsSub "?".data cleaned

/-- The request-normalisation idiom `request.replace(/\s+/g, '').toUpperCase()`
used throughout the protocol engine. -/
def normalizeRequest (pid : String) : List Char :=
  (pid.data.filter (fun c => ¬ isJsSpace c)).map jsToUpper

/-! ## `parseResponseBytes` (src/obd/protocol.ts) -/

/-- The echoed-PID bytes: the source iterates over the request's tail two
characters at a time, rejecting the whole parse (`return []`) when a pair is
not two hex digits.  `none` models that rejection. -/
def pidEchoBytes? : List Char → Option (List ℕ)
  | [] => some []
  | [_] => some []
  | a :: b :: rest =>
    if isHexUpper a && isHexUpper b then
      (pidEchoBytes? rest).map (fun bs => hexPairVal a b :: bs)
    else none

/-- The source's indexed for-loop: find the first position where `seq`
occurs in `bytes` and return everything after it ([] when the sequence is
absent or nothing follows it). -/
def scanAfter (seq : List ℕ) : List ℕ → List ℕ
  | [] => []
  | b :: rest =>
    if seq.isPrefixOf (b :: rest) then (b :: rest).drop seq.length
    else scanAfter seq rest

/-- Embedding of `OBDProtocol.parseResponseBytes` (the header-sequence-scan
version of src/obd/protocol.ts). -/
def parseResponseBytes (rawResponse : String) (pid : String) : List ℕ :=
  let cleaned := cleanReply rawResponse
  if hasErrorToken cleaned then []
  else
    let request := normalizeRequest pid
    if request.length < 2 ∨ request.length % 2 ≠ 0 then []
    else
      match hexPrefixVal (request.take 2) with
      | none => []
      | some mode =>
        match pidEchoBytes? (request.drop 2) with
        | none => []
        | some pidBytes =>
          let allBytes := extractPairs cleaned
          if allBytes = [] then []
          else scanAfter ((mode + 0x40) :: pidBytes) allBytes

example : parseResponseBytes "41 0C 1A F8" "010C" = [0x1A, 0xF8] := by decide
example : parseResponseBytes "410C1AF8" "010C" = [0x1A, 0xF8] := by decide
example : parseResponseBytes "62 01 38 7D" "22 01 38" = [0x7D] := by decide
example : parseResponseBytes "NO DATA" "010C" = [] := by decide
example : parseResponseBytes ">41 0C" "010C" = [] := by decide

/-! ## Specification-side reading of the parsing contract -/

/-- A request is well formed when, after whitespace stripping and upper-casing,
it is a nonempty even-length string of hex digits (every registry request and
supported-PID query has this shape). -/
def WellFormedRequest (pid : String) : Prop :=
  2 ≤ (normalizeRequest pid).length ∧ (normalizeRequest pid).length % 2 = 0 ∧
    ∀ c ∈ normalizeRequest pid, isHexUpper c

instance (pid : String) : Decidable (WellFormedRequest pid) := by
  unfold WellFormedRequest; infer_instance

/-- The byte values of a hex string read two digits at a time (a dangling odd
digit is dropped, as in the source's echo-byte loop). -/
def hexByteChunks : List Char → List ℕ
  | a :: b :: rest => hexPairVal a b :: hexByteChunks rest
  | _ => []

/-- The expected header sequence of the spec:
`[requestMode + 0x40, ...pidEchoBytes]`. -/
def specHeaderSeq (pid : String) : List ℕ :=
  match hexByteChunks (normalizeRequest pid) with
  | [] => []
  | m :: echo => (m + 0x40) :: echo

theorem pidEchoBytes?_eq_chunks :
    ∀ l : List Char, (∀ c ∈ l, isHexUpper c) → pidEchoBytes? l = some (hexByteChunks l)
  | [], _ => rfl
  | [_], _ => rfl
  | a :: b :: rest, h => by
    have ha : isHexUpper a := h a (by simp)
    have hb : isHexUpper b := h b (by simp)
    have ih := pidEchoBytes?_eq_chunks rest (fun c hc => h c (by simp [hc]))
    simp [pidEchoBytes?, hexByteChunks, ha, hb, ih]

theorem scanAfter_of_not_occurs (seq : List ℕ) :
    ∀ l : List ℕ, (∀ i, ¬ seq.isPrefixOf (l.drop i)) → scanAfter seq l = []
  | [], _ => rfl
  | b :: rest, h => by
    have h0 : ¬ seq.isPrefixOf (b :: rest) := by simpa using h 0
    have ih := scanAfter_of_not_occurs seq rest (fun i => by simpa using h (i + 1))
    simp [scanAfter, h0, ih]

theorem scanAfter_of_first_occurrence (seq : List ℕ) :
    ∀ (l : List ℕ) (i : ℕ), seq.isPrefixOf (l.drop i) →
      (∀ j, j < i → ¬ seq.isPrefixOf (l.drop j)) →
      scanAfter seq l = l.drop (i + seq.length)
  | [], i, hocc, _ => by
    have : seq = [] := by
      cases seq with
      | nil => rfl
      | cons x xs => simp [List.isPrefixOf] at hocc
    subst this
    simp [scanAfter]
  | b :: rest, 0, hocc, _ => by
    simp at hocc
    simp [scanAfter, hocc]
  | b :: rest, i + 1, hocc, hmin => by
    have h0 : ¬ seq.isPrefixOf (b :: rest) := by simpa using hmin 0 (Nat.succ_pos i)
    have ih := scanAfter_of_first_occurrence seq rest i (by simpa using hocc)
      (fun j hj => by simpa using hmin (j + 1) (Nat.succ_lt_succ hj))
    simp [scanAfter, h0, ih, Nat.succ_add]

/-- **C1.** `parseResponseBytes` strips prompt/noise characters, returns an
empty payload on an error reply (`NO DATA`, `ERROR`, `UNABLE TO CONNECT`,
`?`), extracts all 2-hex-digit byte tokens with or without separating
spaces, computes the expected header sequence
`[requestMode + 0x40, ...pidEchoBytes]`, returns every byte after the first
exact occurrence of that sequence in the byte stream, and returns an empty
payload when the sequence never occurs; `41 0C 1A F8` for request `010C`
parses to `[0x1A, 0xF8]` and `62 01 38 7D` for `22 01 38` to `[0x7D]`. -/
theorem parseResponseBytes_contract :
    (∀ raw pid, WellFormedRequest pid →
      (hasErrorToken (cleanReply raw) = true → parseResponseBytes raw pid = []) ∧
      (hasErrorToken (cleanReply raw) = false →
        (∀ i, (specHeaderSeq pid).isPrefixOf ((extractPairs (cleanReply raw)).drop i) →
          (∀ j, j < i →
            ¬ (specHeaderSeq pid).isPrefixOf ((extractPairs (cleanReply raw)).drop j)) →
          parseResponseBytes raw pid =
            (extractPairs (cleanReply raw)).drop (i + (specHeaderSeq pid).length)) ∧
        ((∀ i, ¬ (specHeaderSeq pid).isPrefixOf ((extractPairs (cleanReply raw)).drop i)) →
          parseResponseBytes raw pid = []))) ∧
    parseResponseBytes "41 0C 1A F8" "010C" = [0x1A, 0xF8] ∧
    parseResponseBytes "62 01 38 7D" "22 01 38" = [0x7D] := by
  refine ⟨?_, by decide, by decide⟩
  intro raw pid h
  obtain ⟨hlen, heven, hhex⟩ := h
  -- Reduce the code path through `hexPrefixVal` / `pidEchoBytes?` to the
  -- spec-side header sequence.
  obtain ⟨a, b, rest, hr⟩ : ∃ a b rest, normalizeRequest pid = a :: b :: rest := by
    match hnr : normalizeRequest pid with
    | [] => rw [hnr] at hlen; simp at hlen
    | [x] => rw [hnr] at hlen; simp at hlen
    | a :: b :: rest => exact ⟨a, b, rest, rfl⟩
  have ha : isHexUpper a := hhex a (by rw [hr]; simp)
  have hb : isHexUpper b := hhex b (by rw [hr]; simp)
  have hmode : hexPrefixVal ((normalizeRequest pid).take 2) = some (hexPairVal a b) := by
    rw [hr]
    simp [hexPrefixVal, List.takeWhile, ha, hb, hexPairVal]
  have hecho : pidEchoBytes? ((normalizeRequest pid).drop 2) = some (hexByteChunks rest) := by
    rw [hr]
    exact pidEchoBytes?_eq_chunks rest (fun c hc => hhex c (by rw [hr]; simp [hc]))
  have hseq : specHeaderSeq pid = (hexPairVal a b + 0x40) :: hexByteChunks rest := by
    rw [specHeaderSeq, hr]; rfl
  have hnotlt : ¬ ((normalizeRequest pid).length < 2 ∨ (normalizeRequest pid).length % 2 ≠ 0) := by
    push_neg
    exact ⟨by omega, heven⟩
  constructor
  · intro herr
    simp only [parseResponseBytes, herr]
    rfl
  · intro herr
    constructor
    · intro i hocc hmin
      simp only [parseResponseBytes, herr, Bool.false_eq_true, if_false, hnotlt, hmode, hecho]
      rw [hseq] at hocc hmin ⊢
      have hscan := scanAfter_of_first_occurrence _ _ _ hocc hmin
      by_cases hempty : extractPairs (cleanReply raw) = []
      · simp [hempty]
      · simp [hempty, hscan]
    · intro hnever
      simp only [parseResponseBytes, herr, Bool.false_eq_true, if_false, hnotlt, hmode, hecho]
      rw [hseq] at hnever
      by_cases hempty : extractPairs (cleanReply raw) = []
      · simp [hempty]
      · simp [hempty, scanAfter_of_not_occurs _ _ hnever]

/-- Witness for `parseResponseBytes_contract`: an `ERROR` reply to the RPM
request parses to the empty payload. -/
theorem parseResponseBytes_contract_witness :
    parseResponseBytes "ERROR" "010C" = [] :=
  (parseResponseBytes_contract.1 "ERROR" "010C" (by decide)).1 (by decide)

/-! ## Torque equation compiler (src/obd/torqueEquation.ts)

JavaScript numbers are modelled as `ℚ`; the float overflow of enormous
decimal literals (≥ 309 digits) and NaN/Infinity byte values are outside the
model.  Every site where the source `throw`s is an explicit `Except.error`;
the silent defaults of the evaluator (`?? 0`, division by zero, missing
bytes) are explicit `0`s. -/

/-- Binary/unary operators of the Torque grammar (`NEG` is the unary minus
introduced by the shunting-yard pass). -/
inductive TorqueOp
  | add
  | sub
  | mul
  | div
  | neg
deriving DecidableEq

/-- Tokens of the Torque grammar, as in the source's `Token` union. -/
inductive Token
  | num (value : ℚ)
  | var (name : List Char)
  | bit (name : List Char) (bitIdx : ℕ)
  | op (o : TorqueOp)
  | lparen
  | rparen
deriving DecidableEq

/-- `isWhitespace` of the tokenizer (space, tab, newline, carriage return). -/
def torqueIsWhitespace (c : Char) : Bool :=
  c = ' ' ∨ c = '\t' ∨ c = '\n' ∨ c = '\r'

/-- `isDigit` of the tokenizer. -/
def torqueIsDigit (c : Char) : Bool :=
  '0' ≤ c ∧ c ≤ '9'

/-- `isUpperAlpha` of the tokenizer. -/
def isUpperAlpha (c : Char) : Bool :=
  'A' ≤ c ∧ c ≤ 'Z'

/-- Decimal value of a digit run (`Number` on an all-digit string). -/
def digitsVal (ds : List Char) : ℕ :=
  ds.foldl (fun n c => 10 * n + (c.toNat - 48)) 0

/-- `Number(numStr)` for the tokenizer's number strings (digits with at most
one dot, at least one digit): the exact rational `intPart.fracPart`.  Stated
via `mkRat` so that concrete values compute. -/
def ratOfNumStr (l : List Char) : ℚ :=
  let ip := l.takeWhile (fun c => c ≠ '.')
  let fp := (l.dropWhile (fun c => c ≠ '.')).drop 1
  mkRat (digitsVal ip * 10 ^ fp.length + digitsVal fp) (10 ^ fp.length)

/-- The number scan of the tokenizer: digits plus at most one dot; returns
the consumed characters and the rest. -/
def numScan : List Char → Bool → List Char × List Char
  | [], _ => ([], [])
  | c :: cs, hasDot =>
    if torqueIsDigit c then
      let p := numScan cs hasDot
      (c :: p.1, p.2)
    else if c = '.' ∧ ¬ hasDot then
      let p := numScan cs true
      (c :: p.1, p.2)
    else ([], c :: cs)

/-- `s.indexOf('}', i + 1)`: split at the first closing brace, `none` when
there is none. -/
def splitAtBrace : List Char → Option (List Char × List Char)
  | [] => none
  | c :: cs =>
    if c = '\x7d' then some ([], cs)
    else (splitAtBrace cs).map (fun p => (c :: p.1, p.2))

/-- The bit-extraction regex `^([A-Z]+)\s*:\s*(\d+)$` applied to the trimmed
text between the braces. -/
def parseBitInner (l : List Char) : Option (List Char × ℕ) :=
  let name := l.takeWhile isUpperAlpha
  if name = [] then none
  else
    match (l.dropWhile isUpperAlpha).dropWhile isJsSpace with
    | ':' :: r3 =>
      let r4 := r3.dropWhile isJsSpace
      let ds := r4.takeWhile torqueIsDigit
      if ds = [] then none
      else if r4.dropWhile torqueIsDigit = [] then some (name, digitsVal ds)
      else none
    | _ => none

/-- The tokenizer's while-loop.  Every iteration consumes at least one
character, so with `fuel` initialised to the input length the zero-fuel
fallback is unreachable. -/
def tokenizeLoop : ℕ → List Char → Except String (List Token)
  | _, [] => .ok []
  | 0, _ :: _ => .ok []
  | fuel + 1, c :: cs =>
    if torqueIsWhitespace c then tokenizeLoop fuel cs
    else if c = '\x7b' then
      match splitAtBrace cs with
      | none => .error "Unterminated bit extraction"
      | some (inner, rest) =>
        match parseBitInner (jsTrim inner) with
        | none => .error "Invalid bit extraction"
        | some (name, bitIdx) =>
          (tokenizeLoop fuel rest).map (fun ts => Token.bit name bitIdx :: ts)
    else if torqueIsDigit c ∨ (c = '.' ∧ (cs.head?.elim false torqueIsDigit)) then
      let p := numScan (c :: cs) false
      (tokenizeLoop fuel p.2).map (fun ts => Token.num (ratOfNumStr p.1) :: ts)
    else if isUpperAlpha c then
      let name := (c :: cs).takeWhile isUpperAlpha
      (tokenizeLoop fuel ((c :: cs).dropWhile isUpperAlpha)).map
        (fun ts => Token.var name :: ts)
    else if c = '+' then (tokenizeLoop fuel cs).map (fun ts => Token.op .add :: ts)
    else if c = '-' then (tokenizeLoop fuel cs).map (fun ts => Token.op .sub :: ts)
    else if c = '*' then (tokenizeLoop fuel cs).map (fun ts => Token.op .mul :: ts)
    else if c = '/' then (tokenizeLoop fuel cs).map (fun ts => Token.op .div :: ts)
    else if c = '(' then (tokenizeLoop fuel cs).map (fun ts => Token.lparen :: ts)
    else if c = ')' then (tokenizeLoop fuel cs).map (fun ts => Token.rparen :: ts)
    else .error "Unexpected character"

/-- `tokenize(expr)`: trim, upper-case, scan. -/
def tokenize (expr : List Char) : Except String (List Token) :=
  let s := (jsTrim expr).map jsToUpper
  tokenizeLoop s.length s

/-- `precedence`. -/
def precedence : TorqueOp → ℕ
  | .neg => 3
  | .mul | .div => 2
  | .add | .sub => 1

/-- `isRightAssociative`. -/
def isRightAssociative : TorqueOp → Bool
  | .neg => true
  | _ => false

/-- The operator-popping while-loop of the shunting-yard pass: pop operators
off the stack while the precedence rule says so, stopping at the first
non-operator.  Returns (popped, remaining stack). -/
def popOps (o : TorqueOp) : List Token → List Token × List Token
  | [] => ([], [])
  | top :: s =>
    match top with
    | Token.op o2 =>
      if (if isRightAssociative o then precedence o < precedence o2
          else precedence o ≤ precedence o2) then
        let p := popOps o s
        (Token.op o2 :: p.1, p.2)
      else ([], Token.op o2 :: s)
    | t => ([], t :: s)

/-- The right-parenthesis pop: move operators to the output until the
matching left parenthesis, `none` when there is none. -/
def popToLparen : List Token → Option (List Token × List Token)
  | [] => none
  | top :: s =>
    if top = Token.lparen then some ([], s)
    else (popToLparen s).map (fun p => (top :: p.1, p.2))

/-- Is a `-` at this point unary?  (start of input, after an operator, or
after a left parenthesis.) -/
def minusIsUnary : Option Token → Bool
  | none => true
  | some (Token.op _) => true
  | some Token.lparen => true
  | some _ => false

/-- The shunting-yard loop of `toRpn`: `out` and `stack` accumulate output
and operator stack (head = top of stack), `prev` is the previous token. -/
def toRpnGo : List Token → List Token → List Token → Option Token →
    Except String (List Token)
  | [], out, stack, _ =>
    if stack.any (fun t => t = Token.lparen ∨ t = Token.rparen) then
      .error "Mismatched parentheses"
    else .ok (out ++ stack)
  | t :: ts, out, stack, prev =>
    let t := if t = Token.op .sub ∧ minusIsUnary prev then Token.op .neg else t
    match t with
    | Token.num v => toRpnGo ts (out ++ [Token.num v]) stack (some (Token.num v))
    | Token.var n => toRpnGo ts (out ++ [Token.var n]) stack (some (Token.var n))
    | Token.bit n b => toRpnGo ts (out ++ [Token.bit n b]) stack (some (Token.bit n b))
    | Token.op o =>
      let p := popOps o stack
      toRpnGo ts (out ++ p.1) (Token.op o :: p.2) (some (Token.op o))
    | Token.lparen => toRpnGo ts out (Token.lparen :: stack) (some Token.lparen)
    | Token.rparen =>
      match popToLparen stack with
      | none => .error "Mismatched parentheses"
      | some (popped, rest) => toRpnGo ts (out ++ popped) rest (some Token.rparen)

/-- `toRpn`. -/
def toRpn (tokens : List Token) : Except String (List Token) :=
  toRpnGo tokens [] [] none

/-- `torqueVarToIndex`: spreadsheet base-26 with `A=1 .. Z=26`, minus one;
`-1` for names not matching `^[A-Z]+$`. -/
def torqueVarToIndex (name : List Char) : ℤ :=
  let upper := name.map jsToUpper
  if upper ≠ [] ∧ ∀ c ∈ upper, isUpperAlpha c then
    (upper.foldl (fun n c => 26 * n + (c.toNat - 64)) 0 : ℤ) - 1
  else -1

/-- `getByte`: the byte at the variable's index, `0` for a negative index or
an index beyond the array (`Number.isFinite(undefined)` is `false`). -/
def getByte (bytes : List ℚ) (name : List Char) : ℚ :=
  let idx := torqueVarToIndex name
  if idx < 0 then 0 else bytes.getD idx.toNat 0

/-- JavaScript `ToInt32`: truncate toward zero (`tdiv` of the reduced
fraction), wrap into `[-2^31, 2^31)`. -/
def toInt32 (q : ℚ) : ℤ :=
  (q.num.tdiv (q.den : ℤ) + 2 ^ 31) % 2 ^ 32 - 2 ^ 31

/-- The bit-extraction evaluation `((b >> bit) & 1) >>> 0` with the bit
index clamped to `[0, 31]`: arithmetic right shift is flooring division by
`2^sh`, and `& 1` is the two's-complement parity, i.e. `emod 2`. -/
def bitExtract (b : ℚ) (bitIdx : ℕ) : ℚ :=
  let sh := min bitIdx 31
  (((toInt32 b).fdiv (2 ^ sh)) % 2 : ℤ)

/-- The binary arithmetic of the evaluator (division by zero yields `0`). -/
def evalBinOp (o : TorqueOp) (a b : ℚ) : ℚ :=
  match o with
  | .add => a + b
  | .sub => a - b
  | .mul => a * b
  | .div => if b = 0 then 0 else a / b
  | .neg => 0

/-- The RPN evaluator's per-token step (`stack` head = top; the source's
`stack.pop() ?? 0` is the explicit `0` default for an empty stack). -/
def evalRpnStep (bytes : List ℚ) (stack : List ℚ) : Token → List ℚ
  | Token.num v => v :: stack
  | Token.var n => getByte bytes n :: stack
  | Token.bit n b => bitExtract (getByte bytes n) b :: stack
  | Token.op o =>
    if o = .neg then
      match stack with
      | [] => [-(0 : ℚ)]
      | a :: s => -a :: s
    else evalBinOp o ((stack.drop 1).headD 0) (stack.headD 0) :: stack.drop 2
  | Token.lparen => stack
  | Token.rparen => stack

/-- `evalRpn`: fold the steps, return the top of the stack (`0` when the
stack is empty). -/
def evalRpn (rpn : List Token) (bytes : List ℚ) : ℚ :=
  (rpn.foldl (evalRpnStep bytes) []).headD 0

/-- `compileTorqueEquation`: empty expression or a compile error (caught
and logged in the source) yields the always-zero decoder. -/
def compileTorqueEquation (expression : String) : List ℚ → ℚ :=
  if jsTrim expression.data = [] then fun _ => 0
  else
    match (tokenize expression.data).bind toRpn with
    | .error _ => fun _ => 0
    | .ok rpn => fun bytes => evalRpn rpn bytes

deriving instance DecidableEq for Except

example :
    (tokenize "A * 20 / 51".data).bind toRpn =
      Except.ok [Token.var ['A'], Token.num 20, Token.op .mul, Token.num 51,
        Token.op .div] := by
  decide

example : compileTorqueEquation "A * 20 / 51" [102] = 40 := by
  have h : (tokenize "A * 20 / 51".data).bind toRpn =
      Except.ok [Token.var ['A'], Token.num 20, Token.op .mul, Token.num 51,
        Token.op .div] := by decide
  rw [compileTorqueEquation, if_neg (by decide), h]
  have hA : getByte [(102 : ℚ)] ['A'] = 102 := by decide
  simp [evalRpn, evalRpnStep, evalBinOp, hA]
  norm_num

example : compileTorqueEquation "A @ B" [1, 2] = 0 := by decide
example : compileTorqueEquation "" [1, 2] = 0 := by decide
example : compileTorqueEquation "\x7bA:6" [1, 2] = 0 := by decide
example : compileTorqueEquation "(A" [1, 2] = 0 := by decide

/-- **C3.** `compileTorqueEquation` is a total function into total decoders
(no exception reaches the caller and no evaluation throws — every `throw`
site of the source is an `Except.error` consumed here, and the evaluator's
fallbacks are explicit `0`s); an empty or malformed expression — unknown
character, unterminated bit extraction, mismatched parentheses — yields the
decoder that returns `0` on every byte array. -/
theorem compileTorqueEquation_total :
    (∀ expression : String,
      compileTorqueEquation expression = (fun _ => 0) ∨
        ∃ rpn, (tokenize expression.data).bind toRpn = Except.ok rpn ∧
          compileTorqueEquation expression = fun bytes => evalRpn rpn bytes) ∧
    (∀ bytes, compileTorqueEquation "" bytes = 0) ∧
    (∀ expression bytes, (∃ msg, (tokenize expression.data).bind toRpn = Except.error msg) →
      compileTorqueEquation expression bytes = 0) ∧
    (∀ bytes, compileTorqueEquation "A @ B" bytes = 0) ∧
    (∀ bytes, compileTorqueEquation "\x7bA:6" bytes = 0) ∧
    (∀ bytes, compileTorqueEquation "(A" bytes = 0) := by
  have herror : ∀ (expression : String) (bytes : List ℚ),
      (∃ msg, (tokenize expression.data).bind toRpn = Except.error msg) →
      compileTorqueEquation expression bytes = 0 := by
    intro expression bytes ⟨msg, hm⟩
    rw [compileTorqueEquation]
    by_cases h : jsTrim expression.data = []
    · rw [if_pos h]
    · rw [if_neg h, hm]
  refine ⟨?_, fun bytes => rfl, herror,
    fun bytes => herror _ _ ⟨"Unexpected character", by decide⟩,
    fun bytes => herror _ _ ⟨"Unterminated bit extraction", by decide⟩,
    fun bytes => herror _ _ ⟨"Mismatched parentheses", by decide⟩⟩
  intro expression
  rw [compileTorqueEquation]
  by_cases h : jsTrim expression.data = []
  · exact Or.inl (by rw [if_pos h])
  · rw [if_neg h]
    match hc : (tokenize expression.data).bind toRpn with
    | .error msg => exact Or.inl rfl
    | .ok rpn => exact Or.inr ⟨rpn, rfl, rfl⟩

/-- Witness for `compileTorqueEquation_total`: a mismatched-parenthesis
expression compiles to the zero decoder. -/
theorem compileTorqueEquation_total_witness :
    compileTorqueEquation "((" [3, 4] = 0 :=
  compileTorqueEquation_total.2.2.1 "((" [3, 4] ⟨"Mismatched parentheses", by decide⟩

theorem upper_toNat_bounds {c : Char} (h : isUpperAlpha c = true) :
    65 ≤ c.toNat ∧ c.toNat ≤ 90 := by
  rw [isUpperAlpha, decide_eq_true_eq] at h
  obtain ⟨h1, h2⟩ := h
  rw [Char.le_def] at h1 h2
  exact ⟨h1, h2⟩

theorem jsToUpper_of_upper {c : Char} (h : isUpperAlpha c = true) :
    jsToUpper c = c := by
  have hle := (upper_toNat_bounds h).2
  rw [jsToUpper, if_neg]
  intro hcon
  have h97 : 97 ≤ c.toNat := Char.le_def.mp hcon.1
  omega

theorem map_jsToUpper_of_upper :
    ∀ l : List Char, (∀ c ∈ l, isUpperAlpha c) → l.map jsToUpper = l
  | [], _ => rfl
  | c :: t, h => by
    rw [List.map_cons, jsToUpper_of_upper (h c (by simp)),
      map_jsToUpper_of_upper t (fun d hd => h d (by simp [hd]))]

theorem base26_foldl_ge_one :
    ∀ (l : List Char) (n : ℤ), (∀ c ∈ l, isUpperAlpha c) → 1 ≤ n →
      1 ≤ l.foldl (fun n c => 26 * n + ((c.toNat : ℤ) - 64)) n
  | [], n, _, hn => hn
  | c :: t, n, h, hn => by
    rw [List.foldl_cons]
    have hc := (upper_toNat_bounds (h c (by simp))).1
    exact base26_foldl_ge_one t _ (fun d hd => h d (by simp [hd])) (by omega)

/-- **C4.** `torqueVarToIndex` on names matching `^[A-Z]+$` is spreadsheet
base-26 (digits `1..26` minus one, hence the successor recurrence for an
appended letter, and `A=0, B=1, Z=25, AA=26, AB=27, AZ=51, BA=52`), and
during evaluation a byte variable resolves to `bytes[index]`, or to `0`
when that index is out of range of the supplied byte array. -/
theorem torqueVarToIndex_base26 :
    (∀ name : List Char, name ≠ [] → (∀ c ∈ name, isUpperAlpha c) →
      0 ≤ torqueVarToIndex name ∧
      torqueVarToIndex name =
        name.foldl (fun n c => 26 * n + ((c.toNat : ℤ) - 64)) 0 - 1 ∧
      (∀ c, isUpperAlpha c →
        torqueVarToIndex (name ++ [c]) =
          26 * torqueVarToIndex name + 26 + ((c.toNat : ℤ) - 65)) ∧
      (∀ bytes : List ℚ, evalRpn [Token.var name] bytes = getByte bytes name) ∧
      (∀ (bytes : List ℚ) (h : (torqueVarToIndex name).toNat < bytes.length),
        getByte bytes name = bytes.get ⟨(torqueVarToIndex name).toNat, h⟩) ∧
      (∀ bytes : List ℚ, bytes.length ≤ (torqueVarToIndex name).toNat →
        getByte bytes name = 0)) ∧
    torqueVarToIndex ['A'] = 0 ∧ torqueVarToIndex ['B'] = 1 ∧
    torqueVarToIndex ['Z'] = 25 ∧ torqueVarToIndex ['A', 'A'] = 26 ∧
    torqueVarToIndex ['A', 'B'] = 27 ∧ torqueVarToIndex ['A', 'Z'] = 51 ∧
    torqueVarToIndex ['B', 'A'] = 52 := by
  refine ⟨?_, by decide, by decide, by decide, by decide, by decide, by decide, by decide⟩
  intro name hne hup
  have hcond : ∀ l : List Char, l ≠ [] → (∀ c ∈ l, isUpperAlpha c) →
      torqueVarToIndex l = l.foldl (fun n c => 26 * n + ((c.toNat : ℤ) - 64)) 0 - 1 := by
    intro l hlne hlup
    rw [torqueVarToIndex]
    simp only [map_jsToUpper_of_upper l hlup]
    rw [if_pos ⟨hlne, hlup⟩]
  have hfold : torqueVarToIndex name =
      name.foldl (fun n c => 26 * n + ((c.toNat : ℤ) - 64)) 0 - 1 := hcond name hne hup
  have hge1 : 1 ≤ name.foldl (fun n c => 26 * n + ((c.toNat : ℤ) - 64)) 0 := by
    cases name with
    | nil => exact absurd rfl hne
    | cons c t =>
      rw [List.foldl_cons]
      have hc := (upper_toNat_bounds (hup c (by simp))).1
      exact base26_foldl_ge_one t _ (fun d hd => hup d (by simp [hd])) (by omega)
  have hpos : 0 ≤ torqueVarToIndex name := by rw [hfold]; omega
  refine ⟨hpos, hfold, ?_, fun bytes => rfl, ?_, ?_⟩
  · intro c hc
    have happ : torqueVarToIndex (name ++ [c]) =
        (name ++ [c]).foldl (fun n c => 26 * n + ((c.toNat : ℤ) - 64)) 0 - 1 :=
      hcond _ (by simp) (by
        intro d hd
        rcases List.mem_append.mp hd with h | h
        · exact hup d h
        · simp at h; rw [h]; exact hc)
    rw [happ, List.foldl_append, List.foldl_cons, List.foldl_nil, hfold]
    ring
  · intro bytes h
    rw [getByte, if_neg (by omega)]
    exact List.getD_eq_getElem bytes 0 h
  · intro bytes h
    rw [getByte, if_neg (by omega)]
    exact List.getD_eq_default bytes 0 h

/-- Witness for `torqueVarToIndex_base26`: variable `AB` (index 27) on a
two-byte array resolves to `0`. -/
theorem torqueVarToIndex_base26_witness :
    getByte [(10 : ℚ), 20] ['A', 'B'] = 0 := by
  have h := (torqueVarToIndex_base26.1 ['A', 'B'] (by decide) (by decide)).2.2.2.2.2
  exact h [10, 20] (by decide)

/-! ## Supported-PID bitmask decoding (src/obd/pid/standard.ts) -/

/-- The three supported-PID bitmask queries. -/
def SUPPORTED_PID_QUERIES : List String := ["0100", "0120", "0140"]

/-- `n.toString(16).toUpperCase()`. -/
def jsHexString (n : ℕ) : List Char :=
  (Nat.toDigits 16 n).map jsToUpper

/-- `.padStart(2, '0')`. -/
def padStart2 (l : List Char) : List Char :=
  if l.length < 2 then List.replicate (2 - l.length) '0' ++ l else l

/-- The 32-bit combination `((b0 << 24) | (b1 << 16) | (b2 << 8) | b3) >>> 0`
(each `<<` works on the 32-bit pattern, hence the `% 2^32`). -/
def jsPackBitmask (b0 b1 b2 b3 : ℕ) : ℕ :=
  ((b0 <<< 24) % 2 ^ 32 ||| (b1 <<< 16) % 2 ^ 32 ||| (b2 <<< 8) % 2 ^ 32) ||| b3 % 2 ^ 32

/-- Embedding of `decodeSupportedPids`: decode a 4-byte support bitmask into
the list of supported PID ids (`basePid + bit + 1`, zero-padded upper-case
hex, prefixed by the query's mode). -/
def decodeSupportedPids (query : String) (bytes : List ℕ) : List String :=
  if bytes.length < 4 then []
  else
    let mode := query.data.take 2
    let bitmask := jsPackBitmask (bytes.getD 0 0) (bytes.getD 1 0)
      (bytes.getD 2 0) (bytes.getD 3 0)
    (List.range 32).filterMap (fun bit =>
      if bitmask &&& (1 <<< (31 - bit)) ≠ 0 then
        some (String.mk (mode ++
          match hexPrefixVal ((query.data.drop 2).take 2) with
          | some basePid => padStart2 (jsHexString (basePid + bit + 1))
          | none => ['N', 'A', 'N']))
      else none)

example : decodeSupportedPids "0100" [0x80, 0, 0, 1] = ["0101", "0120"] := by decide
example : decodeSupportedPids "0120" [0x40, 0, 0, 0] = ["0122"] := by decide

theorem testBit_jsPackBitmask {b0 b1 b2 b3 : ℕ} (h0 : b0 < 256) (h1 : b1 < 256)
    (h2 : b2 < 256) (h3 : b3 < 256) {p : ℕ} (hp : p < 32) :
    (jsPackBitmask b0 b1 b2 b3).testBit p =
      if p < 8 then b3.testBit p
      else if p < 16 then b2.testBit (p - 8)
      else if p < 24 then b1.testBit (p - 16)
      else b0.testBit (p - 24) := by
  have hpow : ∀ q, 8 ≤ q → (256 : ℕ) ≤ 2 ^ q := by
    intro q hq
    calc (256 : ℕ) = 2 ^ 8 := by norm_num
      _ ≤ 2 ^ q := Nat.pow_le_pow_right (by norm_num) hq
  have hb3 : ∀ q, 8 ≤ q → b3.testBit q = false := fun q hq =>
    Nat.testBit_lt_two_pow (lt_of_lt_of_le h3 (hpow q hq))
  have hb2 : ∀ q, 8 ≤ q → b2.testBit q = false := fun q hq =>
    Nat.testBit_lt_two_pow (lt_of_lt_of_le h2 (hpow q hq))
  have hb1 : ∀ q, 8 ≤ q → b1.testBit q = false := fun q hq =>
    Nat.testBit_lt_two_pow (lt_of_lt_of_le h1 (hpow q hq))
  simp only [jsPackBitmask, Nat.testBit_lor, Nat.testBit_mod_two_pow,
    Nat.testBit_shiftLeft, hp, decide_eq_true_eq, Bool.true_and, ge_iff_le]
  by_cases c8 : p < 8
  · rw [if_pos c8]
    simp [show ¬ 24 ≤ p by omega, show ¬ 16 ≤ p by omega, show ¬ 8 ≤ p by omega]
  · rw [if_neg c8]
    by_cases c16 : p < 16
    · rw [if_pos c16]
      simp [show ¬ 24 ≤ p by omega, show ¬ 16 ≤ p by omega, show 8 ≤ p by omega,
        hb3 p (by omega)]
    · rw [if_neg c16]
      by_cases c24 : p < 24
      · rw [if_pos c24]
        simp [show ¬ 24 ≤ p by omega, show 16 ≤ p by omega, show 8 ≤ p by omega,
          hb3 p (by omega), hb2 (p - 8) (by omega)]
      · rw [if_neg c24]
        simp [show 24 ≤ p by omega, show 16 ≤ p by omega, show 8 ≤ p by omega,
          hb3 p (by omega), hb2 (p - 8) (by omega), hb1 (p - 16) (by omega)]

theorem filterMap_if_eq_map_filter (l : List ℕ) (p : ℕ → Prop) [DecidablePred p]
    (f : ℕ → String) :
    l.filterMap (fun x => if p x then some (f x) else none) =
      (l.filter (fun x => decide (p x))).map f := by
  induction l with
  | nil => rfl
  | cons a t ih =>
    by_cases h : p a
    · rw [List.filterMap_cons, List.filter_cons]
      simp only [h, if_pos, List.map_cons, ih, decide_eq_true_eq, if_true]
    · rw [List.filterMap_cons, List.filter_cons]
      simp only [h, if_false, ih, decide_eq_true_eq]

theorem jsPack_mask_cond_iff (β : ℕ → ℕ) (hβ : ∀ i, i < 4 → β i < 256)
    {bit : ℕ} (hbit : bit < 32) :
    (jsPackBitmask (β 0) (β 1) (β 2) (β 3) &&& (1 <<< (31 - bit)) ≠ 0) ↔
      (β (bit / 8)).testBit (7 - bit % 8) = true := by
  rw [Nat.one_shiftLeft, Nat.and_two_pow]
  have hp : 31 - bit < 32 := by omega
  rw [testBit_jsPackBitmask (hβ 0 (by omega)) (hβ 1 (by omega)) (hβ 2 (by omega))
    (hβ 3 (by omega)) hp]
  have htwo : (0 : ℕ) < 2 ^ (31 - bit) := Nat.pos_pow_of_pos _ (by omega)
  by_cases c8 : bit < 8
  · rw [if_neg (by omega), if_neg (by omega), if_neg (by omega),
      show bit / 8 = 0 from by omega, show 31 - bit - 24 = 7 - bit % 8 from by omega]
    cases h : (β 0).testBit (7 - bit % 8) <;> simp [h]
  · by_cases c16 : bit < 16
    · rw [if_neg (by omega), if_neg (by omega), if_pos (by omega),
        show bit / 8 = 1 from by omega, show 31 - bit - 16 = 7 - bit % 8 from by omega]
      cases h : (β 1).testBit (7 - bit % 8) <;> simp [h]
    · by_cases c24 : bit < 24
      · rw [if_neg (by omega), if_pos (by omega),
          show bit / 8 = 2 from by omega, show 31 - bit - 8 = 7 - bit % 8 from by omega]
        cases h : (β 2).testBit (7 - bit % 8) <;> simp [h]
      · rw [if_pos (by omega),
          show bit / 8 = 3 from by omega, show 31 - bit = 7 - bit % 8 from by omega]
        cases h : (β 3).testBit (7 - bit % 8) <;> simp [h]

/-- **C5.** `decodeSupportedPids` reads the first 4 response bytes as a
32-bit bitmask whose bit 0 is the MSB of the first byte and stands for PID
`basePid + 1` (bit `k` is bit `7 - k % 8` of byte `k / 8` and stands for
`basePid + k + 1`), and returns the supported ids in ascending order as
zero-padded upper-case hex; on `("0100", [0xFF,0xFF,0xFF,0xFF])` it returns
exactly `0101`..`0120` in order. -/
theorem decodeSupportedPids_contract :
    (∀ (query : String) (basePid : ℕ) (bytes : List ℕ),
      hexPrefixVal ((query.data.drop 2).take 2) = some basePid →
      4 ≤ bytes.length → (∀ b ∈ bytes, b < 256) →
      decodeSupportedPids query bytes =
        ((List.range 32).filter
            (fun bit => (bytes.getD (bit / 8) 0).testBit (7 - bit % 8))).map
          (fun bit => String.mk (query.data.take 2 ++
            padStart2 (jsHexString (basePid + bit + 1)))) ∧
      List.Pairwise (· < ·)
        (((List.range 32).filter
            (fun bit => (bytes.getD (bit / 8) 0).testBit (7 - bit % 8))).map
          (fun bit => basePid + bit + 1))) ∧
    decodeSupportedPids "0100" [0xFF, 0xFF, 0xFF, 0xFF] =
      ["0101", "0102", "0103", "0104", "0105", "0106", "0107", "0108",
       "0109", "010A", "010B", "010C", "010D", "010E", "010F", "0110",
       "0111", "0112", "0113", "0114", "0115", "0116", "0117", "0118",
       "0119", "011A", "011B", "011C", "011D", "011E", "011F", "0120"] := by
  refine ⟨?_, by decide⟩
  intro query basePid bytes hq hlen hlt
  have hβ : ∀ i, i < 4 → bytes.getD i 0 < 256 := by
    intro i hi
    have hil : i < bytes.length := by omega
    rw [List.getD_eq_getElem bytes 0 hil]
    exact hlt _ (List.getElem_mem hil)
  constructor
  · rw [decodeSupportedPids, if_neg (by omega)]
    simp only [hq]
    rw [filterMap_if_eq_map_filter]
    congr 1
    apply List.filter_congr
    intro bit hb
    have hbit : bit < 32 := List.mem_range.mp hb
    have hiff := jsPack_mask_cond_iff (fun i => bytes.getD i 0) hβ hbit
    by_cases hc : jsPackBitmask (bytes.getD 0 0) (bytes.getD 1 0) (bytes.getD 2 0)
        (bytes.getD 3 0) &&& (1 <<< (31 - bit)) ≠ 0
    · rw [decide_eq_true hc]
      exact (hiff.mp hc).symm
    · have hfalse : (bytes.getD (bit / 8) 0).testBit (7 - bit % 8) = false := by
        cases h : (bytes.getD (bit / 8) 0).testBit (7 - bit % 8)
        · rfl
        · exact absurd (hiff.mpr h) hc
      rw [hfalse, decide_eq_false hc]
  · rw [List.pairwise_map]
    exact ((List.pairwise_lt_range 32).filter _).imp (by intro a b hab; omega)

/-- Witness for `decodeSupportedPids_contract`: only the MSB of the first
byte set decodes to exactly `[basePid + 1]`. -/
theorem decodeSupportedPids_contract_witness :
    decodeSupportedPids "0100" [128, 0, 0, 0] = ["0101"] := by
  have h := (decodeSupportedPids_contract.1 "0100" 0 [128, 0, 0, 0]
    (by decide) (by decide) (by decide)).1
  rw [h]; decide

/-! ## PID registry (src/obd/pid/toyota.ts, src/types/obd.ts)

`PRIUSCHAT_METRIC_PIDS` is a generated file (produced by
`scripts/generate-priuschat-metric.mjs`, which keys every row as
`PC_<header>_<modeAndPid>_<shortName>`); the table itself is not in the
sources, so the registry is parametrised by it and the generator's key
shape (`PC_` prefix) is a hypothesis. -/

/-- The `PidDefinition` interface (src/types/obd.ts): optional `request`
(defaults to the id) and optional CAN `header`. -/
structure PidDefinition where
  pid : String
  request : Option String := none
  header : Option String := none
  name : String
  shortName : String
  unit : String
  min : ℚ
  max : ℚ
  decode : List ℚ → ℚ

/-- `decodeHvPackVoltageFrom2181`: sum of the 14 16-bit block voltages,
each scaled by `79.99 / 65535`; `0` when fewer than 28 bytes. -/
def decodeHvPackVoltageFrom2181 (bytes : List ℚ) : ℚ :=
  if bytes.length < 28 then 0
  else ((List.range 14).map (fun k =>
    (bytes.getD (2 * k) 0 * 256 + bytes.getD (2 * k + 1) 0) * (79.99 / 65535))).sum

/-- `decodeHvBatteryTempAvgFrom2187`: average of TB1..TB3, each
`(hi*256+lo) * 255.9 / 65535 - 50`; `0` when fewer than 8 bytes. -/
def decodeHvBatteryTempAvgFrom2187 (bytes : List ℚ) : ℚ :=
  if bytes.length < 8 then 0
  else
    let toTemp := fun hi lo => (hi * 256 + lo) * (255.9 / 65535) - 50
    (toTemp (bytes.getD 2 0) (bytes.getD 3 0) + toTemp (bytes.getD 4 0) (bytes.getD 5 0)
      + toTemp (bytes.getD 6 0) (bytes.getD 7 0)) / 3

/-- The hand-written alias table `ZVW30_ALIAS_PIDS`. -/
def ZVW30_ALIAS_PIDS : List (String × PidDefinition) := [
  ("TOYOTA_HV_SOC",
    { pid := "TOYOTA_HV_SOC", request := some "015B", header := some "7E2",
      name := "HV Battery State of Charge", shortName := "SOC", unit := "%",
      min := 0, max := 100, decode := compileTorqueEquation "A * 20 / 51" }),
  ("TOYOTA_HV_CURRENT",
    { pid := "TOYOTA_HV_CURRENT", request := some "2198", header := some "7E2",
      name := "HV Battery Pack Current", shortName := "HV Amp", unit := "A",
      min := -200, max := 200,
      decode := compileTorqueEquation "(A * 256 + B) / 100 - 327.68" }),
  ("TOYOTA_HV_VOLTAGE",
    { pid := "TOYOTA_HV_VOLTAGE", request := some "2181", header := some "7E2",
      name := "HV Battery Pack Voltage", shortName := "HV Volt", unit := "V",
      min := 0, max := 300, decode := decodeHvPackVoltageFrom2181 }),
  ("TOYOTA_HV_TEMP",
    { pid := "TOYOTA_HV_TEMP", request := some "2187", header := some "7E2",
      name := "HV Battery Temperature (avg)", shortName := "HV Temp", unit := "C",
      min := -50, max := 80, decode := decodeHvBatteryTempAvgFrom2187 }),
  ("TOYOTA_CABIN_TEMP",
    { pid := "TOYOTA_CABIN_TEMP", request := some "2121", header := some "7C4",
      name := "Cabin Temperature (Room Sensor)", shortName := "Cabin", unit := "C",
      min := -20, max := 60, decode := compileTorqueEquation "A * 63.75 / 255 - 6.5" }),
  ("TOYOTA_AC_STATUS",
    { pid := "TOYOTA_AC_STATUS", request := some "2175", header := some "7E2",
      name := "A/C Status", shortName := "A/C", unit := "",
      min := 0, max := 1, decode := compileTorqueEquation "\x7bA:5\x7d" }),
  ("TOYOTA_AC_SET_TEMP",
    { pid := "TOYOTA_AC_SET_TEMP", request := some "2129", header := some "7C4",
      name := "A/C Set Temperature (Driver)", shortName := "SET", unit := "C",
      min := 17.5, max := 32.5, decode := compileTorqueEquation "A / 2 + 17.5" })]

/-- Property lookup in a record built as an association list (later entries
would shadow earlier ones, but each table has unique keys). -/
def recordLookup (t : List (String × PidDefinition)) (k : String) :
    Option PidDefinition :=
  (t.find? (fun e => e.1 == k)).map (fun e => e.2)

/-- Lookup in the object-spread `\x7b...a, ...b\x7d`: `b`'s entry wins a key
collision. -/
def spreadLookup (a b : List (String × PidDefinition)) (k : String) :
    Option PidDefinition :=
  match recordLookup b k with
  | some v => some v
  | none => recordLookup a k

/-- `TOYOTA_PIDS = \x7b ...ZVW30_ALIAS_PIDS, ...PRIUSCHAT_METRIC_PIDS \x7d`,
parametrised by the generated table. -/
def TOYOTA_PIDS (priuschatMetricPids : List (String × PidDefinition))
    (id : String) : Option PidDefinition :=
  spreadLookup ZVW30_ALIAS_PIDS priuschatMetricPids id

theorem no_common_prefix_PC_TOYOTA (l : List Char)
    (hp : "PC_".data.isPrefixOf l = true) :
    "TOYOTA_".data.isPrefixOf l = false := by
  cases l with
  | nil => simp [List.isPrefixOf] at hp
  | cons c t =>
    simp only [List.isPrefixOf, show "PC_".data = ['P', 'C', '_'] from rfl,
      show "TOYOTA_".data = ['T', 'O', 'Y', 'O', 'T', 'A', '_'] from rfl,
      Bool.and_eq_true, beq_iff_eq] at hp ⊢
    obtain ⟨hc, -⟩ := hp
    subst hc
    simp

theorem alias_keys_TOYOTA :
    ∀ e ∈ ZVW30_ALIAS_PIDS, "TOYOTA_".data.isPrefixOf e.1.data = true := by
  decide

/-- **C2.** In the merged `TOYOTA_PIDS` registry, for every id present in
both the alias table and the generated table the registry's entry is the
alias entry, and the registry equals the merge that takes the generated
table first and the aliases afterwards: generated ids all start `PC_` and
alias ids all start `TOYOTA_`, so the tables share no id and either merge
order yields the same registry. -/
theorem toyotaPids_alias_precedence :
    ∀ gen : List (String × PidDefinition),
      (∀ e ∈ gen, "PC_".data.isPrefixOf e.1.data = true) →
      (∀ id, recordLookup ZVW30_ALIAS_PIDS id ≠ none → recordLookup gen id = none) ∧
      (∀ id, TOYOTA_PIDS gen id = spreadLookup gen ZVW30_ALIAS_PIDS id) ∧
      (∀ id va vg, recordLookup ZVW30_ALIAS_PIDS id = some va →
        recordLookup gen id = some vg → TOYOTA_PIDS gen id = some va) := by
  intro gen hgen
  have hdisj : ∀ id, recordLookup ZVW30_ALIAS_PIDS id ≠ none →
      recordLookup gen id = none := by
    intro id halias
    -- the alias hit forces `id` to start with `TOYOTA_`
    have hid : "TOYOTA_".data.isPrefixOf id.data = true := by
      rw [recordLookup] at halias
      match hf : ZVW30_ALIAS_PIDS.find? (fun e => e.1 == id) with
      | none => rw [hf] at halias; exact absurd rfl halias
      | some e =>
        have hmem := List.mem_of_find?_eq_some hf
        have hkey := List.find?_some hf
        rw [← beq_iff_eq.mp hkey]
        exact alias_keys_TOYOTA e hmem
    rw [recordLookup, List.find?_eq_none.mpr, Option.map_none']
    intro e he
    have hPC := hgen e he
    intro hcon
    have : "TOYOTA_".data.isPrefixOf e.1.data = true := by
      rw [beq_iff_eq.mp hcon]; exact hid
    rw [no_common_prefix_PC_TOYOTA e.1.data hPC] at this
    exact Bool.false_ne_true this
  refine ⟨hdisj, ?_, ?_⟩
  · intro id
    rw [TOYOTA_PIDS, spreadLookup, spreadLookup]
    rcases ha : recordLookup ZVW30_ALIAS_PIDS id with _ | v
    · rcases hg : recordLookup gen id with _ | w <;> rfl
    · rw [hdisj id (by simp [ha])]
  · intro id va vg ha hg
    rw [hdisj id (by simp [ha])] at hg
    exact Option.noConfusion hg

/-- Witness for `toyotaPids_alias_precedence`: with a one-row generated
table the merged registry resolves ids identically in either merge order. -/
theorem toyotaPids_alias_precedence_witness :
    TOYOTA_PIDS [("PC_7E2_2181_V01",
        { pid := "PC_7E2_2181_V01", name := "", shortName := "", unit := "",
          min := 0, max := 0, decode := fun _ => 0 })] "TOYOTA_HV_SOC" =
      spreadLookup [("PC_7E2_2181_V01",
        { pid := "PC_7E2_2181_V01", name := "", shortName := "", unit := "",
          min := 0, max := 0, decode := fun _ => 0 })] ZVW30_ALIAS_PIDS
        "TOYOTA_HV_SOC" :=
  (toyotaPids_alias_precedence _ (by decide)).2.1 "TOYOTA_HV_SOC"

/-! ## Request grouping in `startPolling` (src/obd/protocol.ts)

`startPolling` groups the requested signal ids by the pair (normalized
header, normalized request) so each wire request is sent once per cycle.
The registry lookup `this.allPidDefinitions[id]` is the `defs` parameter
(the engine instantiates it with the merged `STANDARD_PIDS` /
`TOYOTA_PIDS` registry). -/

/-- The default functional CAN header. -/
def DEFAULT_TX_HEADER : String := "7DF"

/-- One request group: `\x7b request, header, ids \x7d` (normalized request,
raw header of the first id seen, ids in input order). -/
structure RequestGroup where
  request : List Char
  header : Option String
  ids : List String
deriving DecidableEq

/-- `(def?.request ?? id).replace(/\s+/g, '').toUpperCase()`. -/
def groupRequest (defs : String → Option PidDefinition) (id : String) : List Char :=
  normalizeRequest (((defs id).bind (fun d => d.request)).getD id)

/-- `def?.header`. -/
def groupHeader (defs : String → Option PidDefinition) (id : String) : Option String :=
  (defs id).bind (fun d => d.header)

/-- The grouping key `(header ?? DEFAULT_TX_HEADER).trim().toUpperCase() + "|"
+ request`. -/
def groupKey (defs : String → Option PidDefinition) (id : String) : List Char :=
  (jsTrim ((groupHeader defs id).getD DEFAULT_TX_HEADER).data).map jsToUpper
    ++ '|' :: groupRequest defs id

/-- Append `id` to the (unique) group keyed `key`, or create a new group at
the end — the `groupIndex` map of the source. -/
def addToGroups (defs : String → Option PidDefinition)
    (acc : List (List Char × RequestGroup)) (key : List Char) (id : String) :
    List (List Char × RequestGroup) :=
  match acc with
  | [] => [(key, ⟨groupRequest defs id, groupHeader defs id, [id]⟩)]
  | (k, g) :: t =>
    if k == key then (k, ⟨g.request, g.header, g.ids ++ [id]⟩) :: t
    else (k, g) :: addToGroups defs t key id

/-- The grouping fold of `startPolling`. -/
def buildGroupsAux (defs : String → Option PidDefinition) :
    List String → List (List Char × RequestGroup) → List (List Char × RequestGroup)
  | [], acc => acc
  | id :: rest, acc =>
    buildGroupsAux defs rest (addToGroups defs acc (groupKey defs id) id)

/-- The keyed group list built by `startPolling` for a pid list. -/
def buildGroupsKeyed (defs : String → Option PidDefinition) (pids : List String) :
    List (List Char × RequestGroup) :=
  buildGroupsAux defs pids []

/-- The group list (the source's `groups` array). -/
def buildGroups (defs : String → Option PidDefinition) (pids : List String) :
    List RequestGroup :=
  (buildGroupsKeyed defs pids).map (fun e => e.2)

/-- The definition lookup of the C7 example: `A`,`B` share `req1/hdr1`
(modulo spacing and case, which normalization strips) and `C` maps to
`req2/hdr2`. -/
def defsABC : String → Option PidDefinition :=
  fun id =>
    if id = "A" then
      some { pid := "A", request := some "01 0c", header := some "7e0",
             name := "", shortName := "", unit := "", min := 0, max := 0,
             decode := fun _ => 0 }
    else if id = "B" then
      some { pid := "B", request := some "010C", header := some "7E0",
             name := "", shortName := "", unit := "", min := 0, max := 0,
             decode := fun _ => 0 }
    else if id = "C" then
      some { pid := "C", request := some "2101", header := some "7E2",
             name := "", shortName := "", unit := "", min := 0, max := 0,
             decode := fun _ => 0 }
    else none

example : buildGroups defsABC ["A", "B", "C"] =
    [⟨"010C".data, some "7e0", ["A", "B"]⟩, ⟨"2101".data, some "7E2", ["C"]⟩] := by
  decide

/-- Symmetry of `==` on keys. -/
theorem beq_comm_chars (a b : List Char) : (a == b) = (b == a) := by
  by_cases h : a = b
  · subst h; rfl
  · rw [beq_eq_false_iff_ne.mpr h, beq_eq_false_iff_ne.mpr (Ne.symm h)]

/-- Groups of `acc` extended by the matching ids of `ids` (what the fold does
to pre-existing groups). -/
def extendGroups (defs : String → Option PidDefinition)
    (acc : List (List Char × RequestGroup)) (ids : List String) :
    List (List Char × RequestGroup) :=
  acc.map (fun e => (e.1, ⟨e.2.request, e.2.header,
    e.2.ids ++ ids.filter (fun x => groupKey defs x == e.1)⟩))

/-- Stable group-by, the specification-side description of the grouping: the
first id of a new key opens the group, which collects every later id of the
same key in input order; groups appear in first-appearance order. -/
def specGroups (defs : String → Option PidDefinition) :
    List String → List (List Char × RequestGroup)
  | [] => []
  | id :: rest =>
    (groupKey defs id,
      ⟨groupRequest defs id, groupHeader defs id,
        id :: rest.filter (fun x => groupKey defs x == groupKey defs id)⟩) ::
      specGroups defs (rest.filter (fun x => ! (groupKey defs x == groupKey defs id)))
termination_by l => l.length
decreasing_by
  simp only [List.length_cons]
  exact Nat.lt_succ_of_le (List.length_filter_le _ _)

theorem specGroups_nil (defs : String → Option PidDefinition) :
    specGroups defs [] = [] := by
  rw [specGroups]

theorem specGroups_cons (defs : String → Option PidDefinition) (id : String)
    (rest : List String) :
    specGroups defs (id :: rest) =
      (groupKey defs id,
        ⟨groupRequest defs id, groupHeader defs id,
          id :: rest.filter (fun x => groupKey defs x == groupKey defs id)⟩) ::
        specGroups defs (rest.filter (fun x => ! (groupKey defs x == groupKey defs id))) := by
  rw [specGroups]

theorem extendGroups_nil (defs : String → Option PidDefinition)
    (acc : List (List Char × RequestGroup)) : extendGroups defs acc [] = acc := by
  have : ∀ e : List Char × RequestGroup,
      (e.1, (⟨e.2.request, e.2.header, e.2.ids ++ []⟩ : RequestGroup)) = e := by
    intro e
    rw [List.append_nil]
  simp only [extendGroups, List.filter_nil, this]
  exact List.map_id acc

theorem extendGroups_append (defs : String → Option PidDefinition)
    (a b : List (List Char × RequestGroup)) (ids : List String) :
    extendGroups defs (a ++ b) ids = extendGroups defs a ids ++ extendGroups defs b ids := by
  simp [extendGroups]

theorem extendGroups_cons_of_not_mem (defs : String → Option PidDefinition)
    (acc : List (List Char × RequestGroup)) (id : String) (ids : List String)
    (h : ∀ e ∈ acc, (groupKey defs id == e.1) = false) :
    extendGroups defs acc (id :: ids) = extendGroups defs acc ids := by
  simp only [extendGroups]
  apply List.map_congr_left
  intro e he
  rw [List.filter_cons_of_neg (by simp [h e he])]

theorem addToGroups_keys_of_present (defs : String → Option PidDefinition) :
    ∀ (acc : List (List Char × RequestGroup)) (key : List Char) (id : String),
      acc.any (fun e => e.1 == key) = true →
      (addToGroups defs acc key id).map (fun e => e.1) = acc.map (fun e => e.1)
  | [], key, id, h => by simp at h
  | (k, g) :: t, key, id, h => by
    rw [addToGroups]
    by_cases hk : (k == key) = true
    · rw [if_pos hk]; rfl
    · rw [if_neg hk]
      simp only [List.map_cons, List.cons.injEq, true_and]
      refine addToGroups_keys_of_present defs t key id ?_
      simp only [List.any_cons, hk, Bool.false_or] at h
      exact h

theorem addToGroups_of_fresh (defs : String → Option PidDefinition) :
    ∀ (acc : List (List Char × RequestGroup)) (key : List Char) (id : String),
      acc.any (fun e => e.1 == key) = false →
      addToGroups defs acc key id =
        acc ++ [(key, ⟨groupRequest defs id, groupHeader defs id, [id]⟩)]
  | [], key, id, _ => rfl
  | (k, g) :: t, key, id, h => by
    simp only [List.any_cons, Bool.or_eq_false_iff] at h
    rw [addToGroups, if_neg (by simp [h.1]), addToGroups_of_fresh defs t key id h.2]
    rfl

theorem any_fst_key (k : List Char) :
    ∀ l : List (List Char × RequestGroup),
      l.any (fun e => e.1 == k) = (l.map (fun e => e.1)).any (fun y => y == k)
  | [] => rfl
  | e :: t => by
    simp only [List.any_cons, List.map_cons, any_fst_key k t]

theorem extendGroups_addToGroups_present (defs : String → Option PidDefinition) :
    ∀ (acc : List (List Char × RequestGroup)) (id : String) (rest : List String),
      (acc.map (fun e => e.1)).Nodup →
      acc.any (fun e => e.1 == groupKey defs id) = true →
      extendGroups defs (addToGroups defs acc (groupKey defs id) id) rest =
        extendGroups defs acc (id :: rest)
  | [], id, rest, _, hpres => by simp at hpres
  | (k, g) :: t, id, rest, hnd, hpres => by
    rw [addToGroups]
    by_cases hk : (k == groupKey defs id) = true
    · rw [if_pos hk]
      have hkey : k = groupKey defs id := beq_iff_eq.mp hk
      simp only [extendGroups, List.map_cons, List.cons.injEq]
      refine ⟨?_, ?_⟩
      · rw [List.filter_cons, if_pos (by rw [beq_comm_chars]; exact hk)]
        rw [List.append_assoc]
        rfl
      · have hnotmem : ∀ e ∈ t, (groupKey defs id == e.1) = false := by
          intro e he
          have hknot : k ∉ t.map (fun e => e.1) := by
            simp only [List.map_cons, List.nodup_cons] at hnd
            exact hnd.1
          rw [beq_eq_false_iff_ne]
          intro hcon
          exact hknot (by rw [hkey, hcon]; exact List.mem_map_of_mem _ he)
        have := extendGroups_cons_of_not_mem defs t id rest hnotmem
        simp only [extendGroups] at this
        exact this.symm
    · rw [if_neg hk]
      have hnd' : (t.map (fun e => e.1)).Nodup := by
        simp only [List.map_cons, List.nodup_cons] at hnd
        exact hnd.2
      have hpres' : t.any (fun e => e.1 == groupKey defs id) = true := by
        simp only [List.any_cons, hk, Bool.false_or] at hpres
        exact hpres
      have ih := extendGroups_addToGroups_present defs t id rest hnd' hpres'
      simp only [extendGroups, List.map_cons, List.cons.injEq] at ih ⊢
      refine ⟨?_, ih⟩
      rw [List.filter_cons, if_neg (by
        rw [beq_comm_chars] at hk
        simp [hk])]

theorem buildGroupsAux_characterization (defs : String → Option PidDefinition) :
    ∀ (ids : List String) (acc : List (List Char × RequestGroup)),
      (acc.map (fun e => e.1)).Nodup →
      buildGroupsAux defs ids acc =
        extendGroups defs acc ids ++
          specGroups defs
            (ids.filter (fun x => ! acc.any (fun e => e.1 == groupKey defs x)))
  | [], acc, _ => by
    rw [buildGroupsAux, List.filter_nil, specGroups_nil, List.append_nil,
      extendGroups_nil]
  | id :: rest, acc, hnd => by
    rw [buildGroupsAux]
    by_cases hpres : acc.any (fun e => e.1 == groupKey defs id) = true
    · have hkeys := addToGroups_keys_of_present defs acc (groupKey defs id) id hpres
      have hnd' : ((addToGroups defs acc (groupKey defs id) id).map
          (fun e => e.1)).Nodup := by rw [hkeys]; exact hnd
      rw [buildGroupsAux_characterization defs rest _ hnd']
      have hfresh : ∀ x ∈ rest,
          (! (addToGroups defs acc (groupKey defs id) id).any
              (fun e => e.1 == groupKey defs x)) =
            (! acc.any (fun e => e.1 == groupKey defs x)) := by
        intro x _
        rw [any_fst_key, any_fst_key, hkeys]
      rw [List.filter_congr hfresh,
        extendGroups_addToGroups_present defs acc id rest hnd hpres,
        List.filter_cons, if_neg (by simp [hpres])]
    · have hpres' : acc.any (fun e => e.1 == groupKey defs id) = false :=
        Bool.eq_false_iff.mpr hpres
      rw [addToGroups_of_fresh defs acc _ id hpres']
      have hknot : groupKey defs id ∉ acc.map (fun e => e.1) := by
        intro hmem
        rcases List.mem_map.mp hmem with ⟨e, he, hkey⟩
        have := List.any_eq_false.mp hpres' e he
        rw [hkey] at this
        exact this (beq_iff_eq.mpr rfl)
      have hnd' : (((acc ++ [(groupKey defs id,
          (⟨groupRequest defs id, groupHeader defs id, [id]⟩ : RequestGroup))]).map
            (fun e => e.1)).Nodup) := by
        rw [List.map_append, List.nodup_append]
        refine ⟨hnd, List.nodup_singleton _, ?_⟩
        intro a ha hb
        simp only [List.map_cons, List.map_nil, List.mem_singleton] at hb
        rw [hb] at ha
        exact hknot ha
      rw [buildGroupsAux_characterization defs rest _ hnd', extendGroups_append]
      have hnew : extendGroups defs [(groupKey defs id,
          (⟨groupRequest defs id, groupHeader defs id, [id]⟩ : RequestGroup))] rest =
          [(groupKey defs id,
            (⟨groupRequest defs id, groupHeader defs id,
              id :: rest.filter (fun x => groupKey defs x == groupKey defs id)⟩ :
                RequestGroup))] := by
        simp [extendGroups]
      rw [hnew]
      have hskip : extendGroups defs acc (id :: rest) = extendGroups defs acc rest :=
        extendGroups_cons_of_not_mem defs acc id rest (by
          intro e he
          rw [beq_eq_false_iff_ne]
          intro hcon
          exact hknot (by rw [hcon]; exact List.mem_map_of_mem _ he))
      rw [hskip]
      rw [List.filter_cons, if_pos (by simp [hpres'])]
      rw [specGroups_cons]
      have hO1 : (rest.filter (fun x => ! acc.any (fun e => e.1 == groupKey defs x))).filter
            (fun x => groupKey defs x == groupKey defs id) =
          rest.filter (fun x => groupKey defs x == groupKey defs id) := by
        rw [List.filter_filter]
        apply List.filter_congr
        intro x _
        by_cases hm : (groupKey defs x == groupKey defs id) = true
        · have hx : groupKey defs x = groupKey defs id := beq_iff_eq.mp hm
          rw [hm, hx, hpres']
          rfl
        · rw [Bool.eq_false_iff.mpr hm]
          rfl
      have hO2 : (rest.filter (fun x => ! acc.any (fun e => e.1 == groupKey defs x))).filter
            (fun x => ! (groupKey defs x == groupKey defs id)) =
          rest.filter (fun x => ! (acc ++ [(groupKey defs id,
            (⟨groupRequest defs id, groupHeader defs id, [id]⟩ : RequestGroup))]).any
              (fun e => e.1 == groupKey defs x)) := by
        rw [List.filter_filter]
        apply List.filter_congr
        intro x _
        rw [List.any_append]
        simp only [List.any_cons, List.any_nil, Bool.or_false, Bool.not_or]
        rw [beq_comm_chars (groupKey defs id) (groupKey defs x)]
        rw [Bool.and_comm]
      rw [hO1, hO2, List.append_assoc]
      rfl

theorem specGroups_sound (defs : String → Option PidDefinition) :
    ∀ l : List String, ∀ e ∈ specGroups defs l,
      (∃ x ∈ l, e.1 = groupKey defs x) ∧
        e.2.ids = l.filter (fun x => groupKey defs x == e.1)
  | [] => by simp [specGroups_nil]
  | id :: rest => by
    intro e he
    rw [specGroups_cons] at he
    rcases List.mem_cons.mp he with hhead | htail
    · subst hhead
      refine ⟨⟨id, by simp, rfl⟩, ?_⟩
      rw [List.filter_cons, if_pos (by simp)]
    · have ih := specGroups_sound defs
        (rest.filter (fun x => ! (groupKey defs x == groupKey defs id))) e htail
      obtain ⟨⟨x, hx, hex⟩, hids⟩ := ih
      have hxm := List.mem_filter.mp hx
      have hxid : (groupKey defs x == groupKey defs id) = false := by
        cases h : (groupKey defs x == groupKey defs id)
        · rfl
        · rw [h] at hxm; exact absurd hxm.2 (by simp)
      have hkeyne : e.1 ≠ groupKey defs id := by
        rw [hex]
        intro hcon
        rw [beq_iff_eq.mpr hcon] at hxid
        exact Bool.noConfusion hxid
      refine ⟨⟨x, by simp [hxm.1], hex⟩, ?_⟩
      rw [hids, List.filter_filter]
      rw [List.filter_cons, if_neg (by
        rw [beq_eq_false_iff_ne.mpr (fun hcon => hkeyne hcon.symm)]
        simp)]
      apply List.filter_congr
      intro a _
      by_cases hm : (groupKey defs a == e.1) = true
      · have : (groupKey defs a == groupKey defs id) = false := by
          rw [beq_eq_false_iff_ne]
          rw [beq_iff_eq.mp hm]
          exact hkeyne
        rw [hm, this]
        rfl
      · rw [Bool.eq_false_iff.mpr hm]
        rfl
termination_by l => l.length
decreasing_by
  simp only [List.length_cons]
  exact Nat.lt_succ_of_le (List.length_filter_le _ _)

theorem specGroups_keys_nodup (defs : String → Option PidDefinition) :
    ∀ l : List String, ((specGroups defs l).map (fun e => e.1)).Nodup
  | [] => by simp [specGroups_nil]
  | id :: rest => by
    rw [specGroups_cons, List.map_cons, List.nodup_cons]
    refine ⟨?_, specGroups_keys_nodup defs _⟩
    intro hmem
    rcases List.mem_map.mp hmem with ⟨e, he, hkey⟩
    obtain ⟨⟨x, hx, hex⟩, -⟩ := specGroups_sound defs _ e he
    have hxm := List.mem_filter.mp hx
    have : (groupKey defs x == groupKey defs id) = false := by
      cases h : (groupKey defs x == groupKey defs id)
      · rfl
      · rw [h] at hxm; exact absurd hxm.2 (by simp)
    rw [beq_eq_false_iff_ne] at this
    exact this (by rw [← hex, hkey])
termination_by l => l.length
decreasing_by
  simp only [List.length_cons]
  exact Nat.lt_succ_of_le (List.length_filter_le _ _)

theorem specGroups_keys_foldl (defs : String → Option PidDefinition) :
    ∀ (l : List String) (ks : List (List Char)),
      ks ++ (specGroups defs
          (l.filter (fun x => ! ks.any (fun k => k == groupKey defs x)))).map
            (fun e => e.1) =
        l.foldl (fun ks x => if ks.any (fun k => k == groupKey defs x) then ks
          else ks ++ [groupKey defs x]) ks
  | [], ks => by simp [specGroups_nil]
  | id :: rest, ks => by
    rw [List.foldl_cons]
    by_cases hin : ks.any (fun k => k == groupKey defs id) = true
    · rw [if_pos hin, List.filter_cons, if_neg (by simp [hin])]
      exact specGroups_keys_foldl defs rest ks
    · have hin' : ks.any (fun k => k == groupKey defs id) = false :=
        Bool.eq_false_iff.mpr hin
      rw [if_neg hin, List.filter_cons, if_pos (by simp [hin']), specGroups_cons]
      have hinner :
          (rest.filter (fun x => ! ks.any (fun k => k == groupKey defs x))).filter
              (fun x => ! (groupKey defs x == groupKey defs id)) =
            rest.filter
              (fun x => ! (ks ++ [groupKey defs id]).any (fun k => k == groupKey defs x)) := by
        rw [List.filter_filter]
        apply List.filter_congr
        intro x _
        rw [List.any_append]
        simp only [List.any_cons, List.any_nil, Bool.or_false, Bool.not_or]
        rw [beq_comm_chars (groupKey defs id) (groupKey defs x), Bool.and_comm]
      rw [hinner, List.map_cons]
      have := specGroups_keys_foldl defs rest (ks ++ [groupKey defs id])
      rw [← this, List.append_assoc]
      rfl

theorem buildGroupsKeyed_eq_specGroups (defs : String → Option PidDefinition)
    (pids : List String) : buildGroupsKeyed defs pids = specGroups defs pids := by
  rw [buildGroupsKeyed, buildGroupsAux_characterization defs pids [] (by simp)]
  simp [extendGroups]

theorem eq_of_mem_keys_nodup :
    ∀ l : List (List Char × RequestGroup), ((l.map (fun e => e.1)).Nodup) →
      ∀ e ∈ l, ∀ e' ∈ l, e.1 = e'.1 → e = e'
  | [], _, e, he, e', _, _ => absurd he (by simp)
  | (k, g) :: t, hnd, e, he, e', he', hkeys => by
    rw [List.map_cons, List.nodup_cons] at hnd
    rcases List.mem_cons.mp he with rfl | ht
    · rcases List.mem_cons.mp he' with rfl | ht'
      · rfl
      · exact absurd (by rw [hkeys]; exact List.mem_map_of_mem _ ht') hnd.1
    · rcases List.mem_cons.mp he' with rfl | ht'
      · exact absurd (by rw [← hkeys]; exact List.mem_map_of_mem _ ht) hnd.1
      · exact eq_of_mem_keys_nodup t hnd.2 e ht e' ht' hkeys

theorem specGroups_covers (defs : String → Option PidDefinition) :
    ∀ l : List String, ∀ id ∈ l,
      ∃ e, e ∈ specGroups defs l ∧ id ∈ e.2.ids ∧ e.1 = groupKey defs id
  | [] => by intro id hid; exact absurd hid (by simp)
  | id' :: rest => by
    intro id hid
    rw [specGroups_cons]
    rcases List.mem_cons.mp hid with rfl | hrest
    · exact ⟨_, List.mem_cons_self _ _, List.mem_cons_self _ _, rfl⟩
    · by_cases hm : (groupKey defs id == groupKey defs id') = true
      · refine ⟨_, List.mem_cons_self _ _, ?_, (beq_iff_eq.mp hm).symm⟩
        exact List.mem_cons_of_mem _ (List.mem_filter.mpr ⟨hrest, hm⟩)
      · have hfil : id ∈ rest.filter (fun x => ! (groupKey defs x == groupKey defs id')) :=
          List.mem_filter.mpr ⟨hrest, by simp [Bool.eq_false_iff.mpr hm]⟩
        obtain ⟨e, he, hin, hkey⟩ := specGroups_covers defs _ id hfil
        exact ⟨e, List.mem_cons_of_mem _ he, hin, hkey⟩
termination_by l => l.length
decreasing_by
  simp only [List.length_cons]
  exact Nat.lt_succ_of_le (List.length_filter_le _ _)

/-- **C7.** The request groups built by `startPolling` partition the input
id list: every id lands in exactly one group; a group keyed `k` holds, in
input order, exactly the input ids whose key
`normalizedHeader + "|" + normalizedRequest` is `k`; group keys are
distinct and appear in first-appearance order (the insertion fold); and the
`A,B : req1/hdr1`, `C : req2/hdr2` example yields the two groups
`[A,B]`, `[C]` in that order. -/
theorem startPolling_grouping :
    (∀ (defs : String → Option PidDefinition) (pids : List String),
      buildGroupsKeyed defs pids = specGroups defs pids ∧
      (∀ e ∈ buildGroupsKeyed defs pids,
        e.2.ids = pids.filter (fun x => groupKey defs x == e.1)) ∧
      ((buildGroupsKeyed defs pids).map (fun e => e.1)).Nodup ∧
      ((buildGroupsKeyed defs pids).map (fun e => e.1) =
        pids.foldl (fun ks x => if ks.any (fun k => k == groupKey defs x) then ks
          else ks ++ [groupKey defs x]) []) ∧
      (∀ id ∈ pids, ∃! e, e ∈ buildGroupsKeyed defs pids ∧ id ∈ e.2.ids)) ∧
    buildGroups defsABC ["A", "B", "C"] =
      [⟨"010C".data, some "7e0", ["A", "B"]⟩, ⟨"2101".data, some "7E2", ["C"]⟩] := by
  refine ⟨?_, by decide⟩
  intro defs pids
  have heq := buildGroupsKeyed_eq_specGroups defs pids
  have hnd : ((buildGroupsKeyed defs pids).map (fun e => e.1)).Nodup := by
    rw [heq]; exact specGroups_keys_nodup defs pids
  refine ⟨heq, ?_, hnd, ?_, ?_⟩
  · intro e he
    rw [heq] at he
    exact (specGroups_sound defs pids e he).2
  · rw [heq]
    have h := specGroups_keys_foldl defs pids []
    rw [List.nil_append] at h
    have hfil : List.filter (fun x => ! List.any [] fun k => k == groupKey defs x) pids
        = pids := by simp
    rw [hfil] at h
    exact h
  · intro id hid
    obtain ⟨e, he, hin, hkey⟩ := specGroups_covers defs pids id hid
    refine ⟨e, ⟨by rw [heq]; exact he, hin⟩, ?_⟩
    intro e' ⟨he', hin'⟩
    rw [heq] at he'
    have hse := specGroups_sound defs pids e he
    have hse' := specGroups_sound defs pids e' he'
    have hke : (groupKey defs id == e.1) = true := by
      have := hse.2 ▸ hin
      exact (List.mem_filter.mp this).2
    have hke' : (groupKey defs id == e'.1) = true := by
      have := hse'.2 ▸ hin'
      exact (List.mem_filter.mp this).2
    refine eq_of_mem_keys_nodup _ hnd e' (by rw [heq]; exact he') e
      (by rw [heq]; exact he) ?_
    rw [← beq_iff_eq.mp hke, ← beq_iff_eq.mp hke']

/-- Witness for `startPolling_grouping`: in the example, `B` lies in exactly
one group. -/
theorem startPolling_grouping_witness :
    ∃! e, e ∈ buildGroupsKeyed defsABC ["A", "B", "C"] ∧ "B" ∈ e.2.ids :=
  (startPolling_grouping.1 defsABC ["A", "B", "C"]).2.2.2.2 "B" (by decide)

/-! ## `querySupportedPids` (src/obd/protocol.ts)

The transport is a deterministic mock `adapter : String → Except Unit
String` (`Except.error` = a rejected `sendCommand`).  The engine state
threaded through is `(trace of sent commands, cached currentTxHeader)`;
every `sendCommand` call appends to the trace. -/

/-- `formatObdCommand`: strip whitespace, upper-case, chunk into byte pairs
joined by single spaces (`.match(/.{1,2}/g)` then `join(' ')`). -/
def chunk2 : List Char → List (List Char)
  | [] => []
  | [a] => [[a]]
  | a :: b :: r => [a, b] :: chunk2 r

/-- `join(' ')`. -/
def joinSpace : List (List Char) → List Char
  | [] => []
  | [x] => x
  | x :: xs => x ++ ' ' :: joinSpace xs

/-- `OBDProtocol.formatObdCommand`. -/
def formatObdCommand (request : String) : String :=
  let compact := normalizeRequest request
  if compact = [] then String.mk compact
  else String.mk (joinSpace (chunk2 compact))

example : formatObdCommand "0100" = "01 00" := by decide
example : formatObdCommand "22 0138" = "22 01 38" := by decide

/-- Record a `sendCommand` call: the command always enters the trace, the
adapter's reply (or rejection) is returned alongside. -/
def sendCmd (adapter : String → Except Unit String)
    (st : List String × Option String) (cmd : String) :
    (List String × Option String) × Except Unit String :=
  ((st.1 ++ [cmd], st.2), adapter cmd)

/-- `OBDProtocol.ensureTxHeader`: send `ATSH <header>` only when the desired
header differs from the cached one; update the cache on success. -/
def ensureTxHeader (adapter : String → Except Unit String)
    (st : List String × Option String) (header : Option String) :
    (List String × Option String) × Except Unit Unit :=
  let desired := (jsTrim (header.getD DEFAULT_TX_HEADER).data).map jsToUpper
  if desired = [] then (st, .ok ())
  else if st.2 = some (String.mk desired) then (st, .ok ())
  else
    let r := sendCmd adapter st ("ATSH " ++ String.mk desired)
    match r.2 with
    | .error _ => (r.1, .error ())
    | .ok _ => ((r.1.1, some (String.mk desired)), .ok ())

/-- The next range's own query id, `mode + toHex(basePid + 0x20)`. -/
def nextRangeQuery (query : String) : String :=
  String.mk (query.data.take 2 ++
    (match hexPrefixVal ((query.data.drop 2).take 2) with
     | some v => padStart2 (jsHexString (v + 0x20))
     | none => ['N', 'A', 'N']))

example : nextRangeQuery "0100" = "0120" := by decide
example : nextRangeQuery "0120" = "0140" := by decide

/-- The `for (const query of SUPPORTED_PID_QUERIES)` loop: a rejected send
breaks (the `catch`); a mask of at least 4 bytes whose decoded ids lack the
next range's query id breaks; anything else — including an unparseable
reply — continues with the next range. -/
def qspLoop (adapter : String → Except Unit String) :
    List String → List String → (List String × Option String) →
      (List String × Option String) × List String
  | [], supported, st => (st, supported)
  | query :: qs, supported, st =>
    let r := sendCmd adapter st (formatObdCommand query)
    match r.2 with
    | .error _ => (r.1, supported)
    | .ok raw =>
      let bytes := parseResponseBytes raw query
      if 4 ≤ bytes.length then
        let pids := decodeSupportedPids query bytes
        if nextRangeQuery query ∈ pids then qspLoop adapter qs (supported ++ pids) r.1
        else (r.1, supported ++ pids)
      else qspLoop adapter qs supported r.1

/-- `OBDProtocol.querySupportedPids` on a fresh engine (no cached header,
empty trace): set the functional header, then scan the three ranges. -/
def querySupportedPids (adapter : String → Except Unit String)
    (connected : Bool) :
    (List String × Option String) × Except Unit (List String) :=
  if ¬ connected then (([], none), .error ())
  else
    let e := ensureTxHeader adapter ([], none) (some DEFAULT_TX_HEADER)
    match e.2 with
    | .error _ => (e.1, .error ())
    | .ok _ =>
      let r := qspLoop adapter SUPPORTED_PID_QUERIES [] e.1
      (r.1, .ok r.2)

/-- **C6 counterexample.** An adapter that answers `NO DATA` everywhere: the
first range reply parses to no bytes, yet the second and third range
queries are still sent — an unparseable response does not stop the scan. -/
theorem querySupportedPids_unparseable_continues :
    parseResponseBytes "NO DATA" "0100" = [] ∧
    (querySupportedPids (fun _ => Except.ok "NO DATA") true).1.1 =
      ["ATSH 7DF", "01 00", "01 20", "01 40"] := by
  constructor
  · decide
  · decide

/-- The two conditions that stop the range scan at a query: the send is
rejected, or a mask of at least 4 bytes decodes to ids without the next
range's query id. -/
def qspStopCondition (adapter : String → Except Unit String) (q : String) : Prop :=
  adapter (formatObdCommand q) = Except.error () ∨
    ∃ raw, adapter (formatObdCommand q) = Except.ok raw ∧
      4 ≤ (parseResponseBytes raw q).length ∧
      nextRangeQuery q ∉ decodeSupportedPids q (parseResponseBytes raw q)

theorem qspLoop_trace (adapter : String → Except Unit String) :
    ∀ (qs : List String) (supported : List String) (st : List String × Option String),
      ∃ k, k ≤ qs.length ∧
        (qspLoop adapter qs supported st).1.1 =
          st.1 ++ (qs.take k).map formatObdCommand ∧
        (k < qs.length →
          1 ≤ k ∧ qspStopCondition adapter (qs.getD (k - 1) ""))
  | [], supported, st => ⟨0, by simp [qspLoop]⟩
  | q :: qs', supported, st => by
    cases hE : adapter (formatObdCommand q) with
    | error e =>
      refine ⟨1, by simp, ?_, ?_⟩
      · simp [qspLoop, sendCmd, hE]
      · intro _
        refine ⟨le_refl 1, Or.inl ?_⟩
        show adapter (formatObdCommand q) = Except.error ()
        rw [hE]
    | ok raw =>
      by_cases hlen : 4 ≤ (parseResponseBytes raw q).length
      · by_cases hnext : nextRangeQuery q ∈ decodeSupportedPids q (parseResponseBytes raw q)
        · obtain ⟨k', hk', htr, hst⟩ := qspLoop_trace adapter qs'
            (supported ++ decodeSupportedPids q (parseResponseBytes raw q))
            (st.1 ++ [formatObdCommand q], st.2)
          refine ⟨k' + 1, by simpa using hk', ?_, ?_⟩
          · rw [qspLoop]
            simp only [sendCmd, hE, hlen, if_true, if_pos, hnext]
            rw [htr, List.take_succ_cons, List.map_cons, List.append_assoc]
            rfl
          · intro hk
            obtain ⟨h1, hcond⟩ := hst (by simpa using hk)
            refine ⟨by omega, ?_⟩
            rw [show k' + 1 - 1 = (k' - 1) + 1 from by omega, List.getD_cons_succ]
            exact hcond
        · refine ⟨1, by simp, ?_, ?_⟩
          · rw [qspLoop]
            simp only [sendCmd, hE, hlen, if_true, if_pos, hnext, if_false]
            simp
          · intro _
            exact ⟨le_refl 1, Or.inr ⟨raw, hE, hlen, hnext⟩⟩
      · obtain ⟨k', hk', htr, hst⟩ := qspLoop_trace adapter qs' supported
          (st.1 ++ [formatObdCommand q], st.2)
        refine ⟨k' + 1, by simpa using hk', ?_, ?_⟩
        · rw [qspLoop]
          simp only [sendCmd, hE, hlen, if_false]
          rw [htr, List.take_succ_cons, List.map_cons, List.append_assoc]
          rfl
        · intro hk
          obtain ⟨h1, hcond⟩ := hst (by simpa using hk)
          refine ⟨by omega, ?_⟩
          rw [show k' + 1 - 1 = (k' - 1) + 1 from by omega, List.getD_cons_succ]
          exact hcond

theorem ensureTxHeader_default (adapter : String → Except Unit String) :
    ensureTxHeader adapter ([], none) (some DEFAULT_TX_HEADER) =
      (match adapter "ATSH 7DF" with
       | .error _ => ((["ATSH 7DF"], none), Except.error ())
       | .ok _ => ((["ATSH 7DF"], some "7DF"), Except.ok ())) := by
  rw [ensureTxHeader]
  have hdes : ((jsTrim ((some DEFAULT_TX_HEADER).getD DEFAULT_TX_HEADER).data).map jsToUpper)
      = "7DF".data := by decide
  rw [hdes]
  rw [if_neg (by decide : ¬("7DF".data = ([] : List Char)))]
  rw [if_neg (by decide : ¬((none : Option String) = some (String.mk "7DF".data)))]
  simp only [sendCmd]
  rw [show ("ATSH " ++ String.mk "7DF".data) = "ATSH 7DF" from by decide,
    show String.mk "7DF".data = "7DF" from by decide]
  cases h : adapter "ATSH 7DF" <;> rfl

/-- **C6 (amended).** `querySupportedPids` sends the support-bitmask queries
strictly in sequence — the trace is the `ATSH 7DF` header command followed
by a prefix of the three range queries — and stops early exactly on a
rejected send or on a parsed (≥ 4-byte) mask whose decoded ids lack the
next range's own query id; in particular, a first reply whose mask has the
next-range bit unset means the second and third queries are never sent.
(An unparseable reply does not stop the scan; see
`querySupportedPids_unparseable_continues`.) -/
theorem querySupportedPids_early_stop :
    (∀ adapter : String → Except Unit String,
      ∃ k, k ≤ 3 ∧
        (querySupportedPids adapter true).1.1 =
          "ATSH 7DF" :: ((SUPPORTED_PID_QUERIES.take k).map formatObdCommand) ∧
        (k < 3 →
          (k = 0 ∧ adapter "ATSH 7DF" = Except.error ()) ∨
          (1 ≤ k ∧ qspStopCondition adapter (SUPPORTED_PID_QUERIES.getD (k - 1) "")))) ∧
    (querySupportedPids
        (fun cmd => Except.ok (if cmd = "01 00" then "41 00 FF FF FF FE" else "OK"))
        true).1.1 = ["ATSH 7DF", "01 00"] := by
  refine ⟨?_, by decide⟩
  intro adapter
  rw [querySupportedPids, if_neg (by simp), ensureTxHeader_default]
  cases hA : adapter "ATSH 7DF" with
  | error e =>
    refine ⟨0, by omega, rfl, ?_⟩
    intro _
    exact Or.inl ⟨rfl, rfl⟩
  | ok reply =>
    obtain ⟨k, hk, htr, hst⟩ := qspLoop_trace adapter SUPPORTED_PID_QUERIES []
      (["ATSH 7DF"], some "7DF")
    refine ⟨k, hk, ?_, fun hlt => Or.inr (hst hlt)⟩
    rw [show (qspLoop adapter SUPPORTED_PID_QUERIES [] (["ATSH 7DF"], some "7DF")).1.1 =
        "ATSH 7DF" :: List.map formatObdCommand (List.take k SUPPORTED_PID_QUERIES)
      from htr]

/-- Witness for `querySupportedPids_early_stop`: the all-`NO DATA` adapter
walks all three ranges in order. -/
theorem querySupportedPids_early_stop_witness :
    ∃ k, k ≤ 3 ∧
      (querySupportedPids (fun _ => Except.ok "NO DATA") true).1.1 =
        "ATSH 7DF" :: ((SUPPORTED_PID_QUERIES.take k).map formatObdCommand) ∧
      (k < 3 →
        (k = 0 ∧ (fun _ => Except.ok "NO DATA") "ATSH 7DF" = Except.error ()) ∨
        (1 ≤ k ∧ qspStopCondition (fun _ => Except.ok "NO DATA")
          (SUPPORTED_PID_QUERIES.getD (k - 1) ""))) :=
  querySupportedPids_early_stop.1 (fun _ => Except.ok "NO DATA")

/-! ## The polling cycle body (src/obd/protocol.ts, `startPolling`)

One cycle walks the request groups in order.  Per group: set the header,
send the request once, parse once; any failure (rejected `ATSH`, rejected
send, empty parse) is caught by the group-level `catch` and reported as an
error callback `(id, none)` to every id of the group; on success every id
gets its own decode of the shared payload.  Callbacks are modelled as
`(id, none)` for `(id, null, error)` and `(id, some (value, raw))` for
`(id, \x7bvalue, raw\x7d)`. -/

/-- Process one request group (the body of the `for (const group of groups)`
loop, including its `try`/`catch`). -/
def runGroup (adapter : String → Except Unit String)
    (defs : String → Option PidDefinition) (st : List String × Option String)
    (g : RequestGroup) :
    (List String × Option String) × List (String × Option (ℚ × String)) :=
  let e := ensureTxHeader adapter st g.header
  match e.2 with
  | .error _ => (e.1, g.ids.map (fun id => (id, none)))
  | .ok _ =>
    let r := sendCmd adapter e.1 (formatObdCommand (String.mk g.request))
    match r.2 with
    | .error _ => (r.1, g.ids.map (fun id => (id, none)))
    | .ok raw =>
      let bytes := parseResponseBytes raw (String.mk g.request)
      if bytes.length = 0 then (r.1, g.ids.map (fun id => (id, none)))
      else
        (r.1, g.ids.map (fun id =>
          match defs id with
          | none => (id, none)
          | some d => (id, some (d.decode (bytes.map (fun b => (b : ℚ))), raw))))

/-- One polling cycle over all groups, threading the header cache and
concatenating the callbacks. -/
def runCycle (adapter : String → Except Unit String)
    (defs : String → Option PidDefinition) (st : List String × Option String) :
    List RequestGroup →
      (List String × Option String) × List (String × Option (ℚ × String))
  | [] => (st, [])
  | g :: gs =>
    let r := runGroup adapter defs st g
    let rest := runCycle adapter defs r.1 gs
    (rest.1, r.2 ++ rest.2)

/-- `n` polling cycles back to back (the `setTimeout` chain with no stop
request). -/
def runCycles (adapter : String → Except Unit String)
    (defs : String → Option PidDefinition) (groups : List RequestGroup) :
    ℕ → (List String × Option String) →
      (List String × Option String) × List (String × Option (ℚ × String))
  | 0, st => (st, [])
  | n + 1, st =>
    let c := runCycle adapter defs st groups
    let rest := runCycles adapter defs groups n c.1
    (rest.1, c.2 ++ rest.2)

theorem runGroup_ids (adapter : String → Except Unit String)
    (defs : String → Option PidDefinition) (st : List String × Option String)
    (g : RequestGroup) :
    (runGroup adapter defs st g).2.map (fun ev => ev.1) = g.ids := by
  rw [runGroup]
  simp only [sendCmd]
  split
  · rw [List.map_map]
    exact List.map_id g.ids
  · split
    · rw [List.map_map]
      exact List.map_id g.ids
    · split
      · rw [List.map_map]
        exact List.map_id g.ids
      · rw [List.map_map]
        calc g.ids.map _ = g.ids.map (fun id => id) := by
              apply List.map_congr_left
              intro id _
              rcases hd : defs id with _ | d <;> simp [Function.comp, hd]
          _ = g.ids := List.map_id g.ids

theorem runGroup_shape (adapter : String → Except Unit String)
    (defs : String → Option PidDefinition) (st : List String × Option String)
    (g : RequestGroup) :
    (runGroup adapter defs st g).2 = g.ids.map (fun id => (id, none)) ∨
    ∃ raw, adapter (formatObdCommand (String.mk g.request)) = Except.ok raw ∧
      (parseResponseBytes raw (String.mk g.request)).length ≠ 0 ∧
      (runGroup adapter defs st g).2 = g.ids.map (fun id =>
        match defs id with
        | none => (id, none)
        | some d => (id, some (d.decode
            ((parseResponseBytes raw (String.mk g.request)).map (fun b => (b : ℚ))),
            raw))) := by
  rw [runGroup]
  simp only [sendCmd]
  split
  · exact Or.inl rfl
  · split
    · exact Or.inl rfl
    · next raw heq =>
      split
      · exact Or.inl rfl
      · next hne =>
        exact Or.inr ⟨raw, heq, hne, rfl⟩

theorem runCycle_ids (adapter : String → Except Unit String)
    (defs : String → Option PidDefinition) :
    ∀ (groups : List RequestGroup) (st : List String × Option String),
      (runCycle adapter defs st groups).2.map (fun ev => ev.1) =
        groups.bind (fun g => g.ids)
  | [], _ => rfl
  | g :: gs, st => by
    rw [runCycle]
    show ((runGroup adapter defs st g).2 ++
        (runCycle adapter defs (runGroup adapter defs st g).1 gs).2).map
          (fun ev => ev.1) = (g :: gs).bind (fun g => g.ids)
    rw [List.map_append, runGroup_ids, runCycle_ids adapter defs gs _]
    rfl

theorem runCycles_ids (adapter : String → Except Unit String)
    (defs : String → Option PidDefinition) (groups : List RequestGroup) :
    ∀ (n : ℕ) (st : List String × Option String),
      (runCycles adapter defs groups n st).2.map (fun ev => ev.1) =
        (List.replicate n (groups.bind (fun g => g.ids))).join
  | 0, _ => rfl
  | n + 1, st => by
    rw [runCycles]
    show ((runCycle adapter defs st groups).2 ++
        (runCycles adapter defs groups n (runCycle adapter defs st groups).1).2).map
          (fun ev => ev.1) = _
    rw [List.map_append, runCycle_ids, runCycles_ids adapter defs groups n _,
      List.replicate_succ]
    rfl

/-- The two-group example: the transport rejects the first group's request
(`01 0C`) but serves the second (`21 01`). -/
def exAdapter : String → Except Unit String := fun cmd =>
  if cmd = "ATSH 7DF" then Except.ok "OK"
  else if cmd = "21 01" then Except.ok "61 01 2A"
  else Except.error ()

/-- Definitions for the example: only `C` decodes (first payload byte). -/
def exDefs : String → Option PidDefinition := fun id =>
  if id = "C" then
    some { pid := "C", request := some "2101", name := "", shortName := "",
           unit := "", min := 0, max := 255, decode := fun bs => bs.getD 0 0 }
  else none

/-- **C8.** Within one polling cycle every id of every group receives
exactly one callback, in group order — a failing group never suppresses the
callbacks of the other groups of the cycle, nor of later cycles — and per
group either the header-set/send/parse failed and every id of the group got
the error callback `(id, none)`, or the request succeeded and every id got
its own decode of the shared payload.  In the two-group example the failing
first group yields `(A, null, error), (B, null, error)` while the second
still yields `(C, \x7bvalue, raw\x7d)` in the same cycle. -/
theorem pollCycle_isolation :
    (∀ (adapter : String → Except Unit String) (defs : String → Option PidDefinition)
        (st : List String × Option String) (groups : List RequestGroup),
      (runCycle adapter defs st groups).2.map (fun ev => ev.1) =
        groups.bind (fun g => g.ids)) ∧
    (∀ (adapter : String → Except Unit String) (defs : String → Option PidDefinition)
        (st : List String × Option String) (g : RequestGroup),
      (runGroup adapter defs st g).2 = g.ids.map (fun id => (id, none)) ∨
      ∃ raw, adapter (formatObdCommand (String.mk g.request)) = Except.ok raw ∧
        (parseResponseBytes raw (String.mk g.request)).length ≠ 0 ∧
        (runGroup adapter defs st g).2 = g.ids.map (fun id =>
          match defs id with
          | none => (id, none)
          | some d => (id, some (d.decode
              ((parseResponseBytes raw (String.mk g.request)).map (fun b => (b : ℚ))),
              raw)))) ∧
    (∀ (adapter : String → Except Unit String) (defs : String → Option PidDefinition)
        (groups : List RequestGroup) (n : ℕ) (st : List String × Option String),
      (runCycles adapter defs groups n st).2.map (fun ev => ev.1) =
        (List.replicate n (groups.bind (fun g => g.ids))).join) ∧
    (runCycle exAdapter exDefs ([], none)
        [⟨"010C".data, none, ["A", "B"]⟩, ⟨"2101".data, none, ["C"]⟩]).2 =
      [("A", none), ("B", none), ("C", some ((42 : ℚ), "61 01 2A"))] := by
  refine ⟨fun adapter defs st groups => runCycle_ids adapter defs groups st,
    runGroup_shape, fun adapter defs groups n st => runCycles_ids adapter defs groups n st, ?_⟩
  decide

/-! ## Start/stop state machine of the polling scheduler

A discrete-event model of `startPolling` / `stopPolling` / the `setTimeout`
chain.  A *cycle chain* is one invocation of the async `pollCycle`; between
two of its transport awaits it is suspended, so other synchronous calls
(`startPolling`, `stopPolling`) and other chains can run in between.  One
`stepChain` resumption processes one group — the `if (!this.isPolling)
return` check, the group's single send, its callbacks, and (after the last
group, with the flag still set) the `setTimeout` registration — exactly the
code between two suspension points.  `timers` holds the registered,
not-yet-cancelled timeouts; `pollingTimer` is the engine's field holding
only the most recent handle.  Callbacks are recorded as the ids they are
invoked for; `sends` counts transport commands. -/

structure CycleChain where
  groups : List (List String)
  remaining : List (List String)
deriving DecidableEq

structure PollSystem where
  isPolling : Bool
  pollingTimer : Option ℕ
  nextTimerId : ℕ
  timers : List (ℕ × List (List String))
  chains : List CycleChain
  events : List String
  sends : ℕ
deriving DecidableEq

/-- A freshly constructed engine. -/
def initPollSystem : PollSystem :=
  { isPolling := false, pollingTimer := none, nextTimerId := 0, timers := [],
    chains := [], events := [], sends := 0 }

/-- `stopPolling`: flip the flag and `clearTimeout` the (single) pending
handle. -/
def stopPolling (s : PollSystem) : PollSystem :=
  { s with
    isPolling := false,
    timers := match s.pollingTimer with
      | some t => s.timers.filter (fun e => e.1 != t)
      | none => s.timers,
    pollingTimer := none }

/-- `startPolling`: stop any existing loop, return on an empty id list, else
raise the flag, build the groups and start a cycle chain (which suspends at
its first transport await). -/
def startPolling (defs : String → Option PidDefinition) (pids : List String)
    (s : PollSystem) : PollSystem :=
  let s := if s.isPolling then stopPolling s else s
  if pids = [] then s
  else
    let groups := (buildGroups defs pids).map (fun g => g.ids)
    { s with isPolling := true, chains := s.chains ++ [⟨groups, groups⟩] }

/-- Resume the oldest suspended chain for one group: die at a lowered flag,
otherwise emit the group's callbacks and one send, and after the last group
register the next cycle with `setTimeout` (overwriting `pollingTimer`). -/
def stepChain (s : PollSystem) : PollSystem :=
  match s.chains with
  | [] => s
  | c :: rest =>
    if ¬ s.isPolling then { s with chains := rest }
    else
      match c.remaining with
      | [] =>
        { s with
          chains := rest,
          nextTimerId := s.nextTimerId + 1,
          timers := s.timers ++ [(s.nextTimerId, c.groups)],
          pollingTimer := some s.nextTimerId }
      | g :: gs =>
        if gs = [] then
          { s with
            chains := rest,
            events := s.events ++ g,
            sends := s.sends + 1,
            nextTimerId := s.nextTimerId + 1,
            timers := s.timers ++ [(s.nextTimerId, c.groups)],
            pollingTimer := some s.nextTimerId }
        else
          { s with
            chains := rest ++ [⟨c.groups, gs⟩],
            events := s.events ++ g,
            sends := s.sends + 1 }

/-- A registered timeout fires: it is consumed, and the new `pollCycle`
invocation survives its entry flag check only when the engine is polling. -/
def timerFire (t : ℕ) (s : PollSystem) : PollSystem :=
  match s.timers.find? (fun e => e.1 == t) with
  | none => s
  | some e =>
    let s' := { s with timers := s.timers.filter (fun x => x.1 != t) }
    if s.isPolling then { s' with chains := s'.chains ++ [⟨e.2, e.2⟩] }
    else s'

inductive PollAction
  | start (pids : List String)
  | stop
  | step
  | fire (t : ℕ)

def pollStep (defs : String → Option PidDefinition) (s : PollSystem) :
    PollAction → PollSystem
  | .start pids => startPolling defs pids s
  | .stop => stopPolling s
  | .step => stepChain s
  | .fire t => timerFire t s

def runPoll (defs : String → Option PidDefinition) (acts : List PollAction) :
    PollSystem :=
  acts.foldl (pollStep defs) initPollSystem

/-- Registry lookup used in the scheduler examples (no ids resolve, so every
id keys its own group under the default header). -/
def defsNone : String → Option PidDefinition := fun _ => none

/-- Actions that involve no new `startPolling`/`stopPolling` call: the event
loop merely resumes suspended chains and fires registered timeouts. -/
def isPassiveAction : PollAction → Bool
  | .step => true
  | .fire _ => true
  | _ => false

theorem stepChain_notPolling (s : PollSystem) (h : s.isPolling = false) :
    (stepChain s).isPolling = false ∧ (stepChain s).events = s.events ∧
    (stepChain s).sends = s.sends ∧ (stepChain s).timers = s.timers ∧
    (stepChain s).pollingTimer = s.pollingTimer := by
  obtain ⟨ip, pt, nt, tm, ch, ev, sd⟩ := s
  simp only at h
  subst h
  cases ch <;> simp [stepChain]

theorem timerFire_notPolling (t : ℕ) (s : PollSystem) (h : s.isPolling = false) :
    (timerFire t s).isPolling = false ∧ (timerFire t s).events = s.events ∧
    (timerFire t s).sends = s.sends ∧ (timerFire t s).chains = s.chains := by
  cases hf : s.timers.find? (fun e => e.1 == t) <;>
    simp [timerFire, hf, h]

theorem passiveRun (defs : String → Option PidDefinition) :
    ∀ (acts : List PollAction) (s : PollSystem),
      (∀ a ∈ acts, isPassiveAction a = true) → s.isPolling = false →
      (acts.foldl (pollStep defs) s).events = s.events ∧
      (acts.foldl (pollStep defs) s).sends = s.sends ∧
      (acts.foldl (pollStep defs) s).isPolling = false := by
  intro acts
  induction acts with
  | nil => intro s _ h; exact ⟨rfl, rfl, h⟩
  | cons a rest ih =>
    intro s hall h
    have ha := hall a (by simp)
    have hrest : ∀ b ∈ rest, isPassiveAction b = true :=
      fun b hb => hall b (by simp [hb])
    cases a with
    | start pids => simp [isPassiveAction] at ha
    | stop => simp [isPassiveAction] at ha
    | step =>
      obtain ⟨h1, h2, h3, _, _⟩ := stepChain_notPolling s h
      have hr := ih (stepChain s) hrest h1
      exact ⟨by rw [List.foldl_cons]; exact hr.1.trans h2,
             by rw [List.foldl_cons]; exact hr.2.1.trans h3,
             by rw [List.foldl_cons]; exact hr.2.2⟩
    | fire t =>
      obtain ⟨h1, h2, h3, _⟩ := timerFire_notPolling t s h
      have hr := ih (timerFire t s) hrest h1
      exact ⟨by rw [List.foldl_cons]; exact hr.1.trans h2,
             by rw [List.foldl_cons]; exact hr.2.1.trans h3,
             by rw [List.foldl_cons]; exact hr.2.2⟩

/-- C9: REFUTED as stated (code bug). `isPolling` is a plain boolean, so a
second `startPolling` issued while the first cycle chain is suspended at a
transport await leaves TWO live cycle chains: the first chain's entry flag
check already passed, the second `startPolling` flips the flag off and back
on, and when each chain completes it registers its own `setTimeout`.  After
`[start ["X"], start ["X"], step, step]` two timeouts (ids 0 and 1) are
registered, both chains delivered callbacks (`events = ["X", "X"]`), and
`pollingTimer` remembers only handle 1 — so `stopPolling` cancels one timer
and leaves timeout 0 registered.  Firing both timeouts reproduces two chains
and two fresh timeouts: the duplication persists across cycles.  The parts
of the claim that do hold are proved as well: `stopPolling` is idempotent,
lowers the flag and clears the stored handle; `startPolling` on a polling
engine behaves exactly as `stopPolling` followed by `startPolling`; and a
chain resuming after `stopPolling` emits nothing and schedules nothing. -/
theorem startPolling_restart_race :
    (runPoll defsNone [.start ["X"], .start ["X"], .step, .step]).timers
        = [(0, [["X"]]), (1, [["X"]])] ∧
    (runPoll defsNone [.start ["X"], .start ["X"], .step, .step]).events
        = ["X", "X"] ∧
    (runPoll defsNone [.start ["X"], .start ["X"], .step, .step]).pollingTimer
        = some 1 ∧
    (stopPolling (runPoll defsNone [.start ["X"], .start ["X"], .step, .step])).timers
        = [(0, [["X"]])] ∧
    (runPoll defsNone
        [.start ["X"], .start ["X"], .step, .step,
         .fire 0, .fire 1, .step, .step]).timers
        = [(2, [["X"]]), (3, [["X"]])] ∧
    (runPoll defsNone
        [.start ["X"], .start ["X"], .step, .step,
         .fire 0, .fire 1, .step, .step]).events
        = ["X", "X", "X", "X"] ∧
    (∀ s, stopPolling (stopPolling s) = stopPolling s) ∧
    (∀ s, (stopPolling s).isPolling = false ∧ (stopPolling s).pollingTimer = none) ∧
    (∀ defs pids s, s.isPolling = true →
        startPolling defs pids s = startPolling defs pids (stopPolling s)) ∧
    (∀ s, s.isPolling = false → (stepChain s).timers = s.timers ∧
        (stepChain s).events = s.events ∧
        (stepChain s).pollingTimer = s.pollingTimer) := by
  refine ⟨by decide, by decide, by decide, by decide, by decide, by decide,
    fun s => rfl, fun s => ⟨rfl, rfl⟩, ?_, ?_⟩
  · intro defs pids s h
    simp [startPolling, stopPolling, h]
  · intro s h
    obtain ⟨_, h2, _, h4, h5⟩ := stepChain_notPolling s h
    exact ⟨h4, h2, h5⟩

theorem startPolling_restart_race_witness :
    startPolling defsNone ["X"] (startPolling defsNone ["X"] initPollSystem)
      = startPolling defsNone ["X"]
          (stopPolling (startPolling defsNone ["X"] initPollSystem)) :=
  startPolling_restart_race.2.2.2.2.2.2.2.2.1 defsNone ["X"]
    (startPolling defsNone ["X"] initPollSystem) (by decide)

/-- C10: `startPolling` with an empty id list stops any currently active
polling loop (it is exactly the stop-if-polling prefix) and starts nothing:
afterwards `isPolling` is false, no cycle chain was created, no command was
sent, no callback was invoked, no timeout was registered (the timer count
cannot grow and the id source is untouched) — and however many chain
resumptions and timer firings follow, still no command is sent and no
callback is ever invoked. -/
theorem startPolling_empty_stops (defs : String → Option PidDefinition)
    (s : PollSystem) :
    startPolling defs [] s = (if s.isPolling then stopPolling s else s) ∧
    (startPolling defs [] s).isPolling = false ∧
    (startPolling defs [] s).chains = s.chains ∧
    (startPolling defs [] s).events = s.events ∧
    (startPolling defs [] s).sends = s.sends ∧
    (startPolling defs [] s).nextTimerId = s.nextTimerId ∧
    (startPolling defs [] s).timers.length ≤ s.timers.length ∧
    (∀ acts : List PollAction, (∀ a ∈ acts, isPassiveAction a = true) →
      (acts.foldl (pollStep defs) (startPolling defs [] s)).events = s.events ∧
      (acts.foldl (pollStep defs) (startPolling defs [] s)).sends = s.sends) := by
  have hr : startPolling defs [] s = if s.isPolling then stopPolling s else s := rfl
  have hflag : (startPolling defs [] s).isPolling = false := by
    rw [hr]; cases hip : s.isPolling <;> simp [hip, stopPolling]
  have hev : (startPolling defs [] s).events = s.events := by
    rw [hr]; cases hip : s.isPolling <;> simp [hip, stopPolling]
  have hsd : (startPolling defs [] s).sends = s.sends := by
    rw [hr]; cases hip : s.isPolling <;> simp [hip, stopPolling]
  refine ⟨hr, hflag, ?_, hev, hsd, ?_, ?_, ?_⟩
  · rw [hr]; cases hip : s.isPolling <;> simp [hip, stopPolling]
  · rw [hr]; cases hip : s.isPolling <;> simp [hip, stopPolling]
  · rw [hr]
    cases hip : s.isPolling
    · simp
    · simp only [if_pos rfl, stopPolling]
      cases hpt : s.pollingTimer
      · simp
      · simpa using List.length_filter_le _ s.timers
  · intro acts hall
    obtain ⟨h1, h2, _⟩ := passiveRun defs acts (startPolling defs [] s) hall hflag
    exact ⟨h1.trans hev, h2.trans hsd⟩

theorem startPolling_empty_stops_witness :
    ((([PollAction.step]).foldl (pollStep defsNone)
        (startPolling defsNone [] initPollSystem)).events
      = initPollSystem.events) :=
  ((startPolling_empty_stops defsNone initPollSystem).2.2.2.2.2.2.2
    [PollAction.step] (by decide)).1
